import Mathlib

/-!
Verification of the recursive-decomposition chat engine
(`src/utils.py`, `src/message_manager.py`, `src/messages_meta_data_manager.py`,
`src/LLM_manager.py`) against its natural-language specification.

Python state is modelled functionally: a mutating method becomes a function
from the old value to the new value, and a method that raises becomes a
function into `Except`/`Option`.  Machine integers do not overflow in any of
the translated code paths, so `Nat` is used throughout.
-/

namespace TaskCounterM

/-- Model of `TaskCounter.numbers_array` (src/utils.py, class TaskCounter): the dotted
hierarchical task path, as the list of its integer components. -/
abbrev Path := List Nat

/-- Model of `TaskCounter.increase_digit` (src/utils.py:140-143): raises on the empty
(root) path, otherwise adds 1 to the last component.  `Except.error` models
the raised `Exception`; on error the object is left unchanged (the raise
happens before any mutation). -/
def increase_digit (p : Path) : Except String Path :=
  if p.isEmpty then
    .error "Попытка увеличить номер задачи для Исходная"
  else
    .ok (p.dropLast ++ [p.getLast! + 1])

/-- Model of `TaskCounter.increase_order` (src/utils.py:145-146): appends a `1`. -/
def increase_order (p : Path) : Path := p ++ [1]

/-- Model of `TaskCounter.reduce_order` (src/utils.py:148-151): raises on the empty
(root) path, otherwise pops the last component. -/
def reduce_order (p : Path) : Except String Path :=
  if p.isEmpty then
    .error "Попытка уменьшить порядок у Исходная задача"
  else
    .ok p.dropLast

/-- Model of `TaskCounter.get_order` (src/utils.py:153-154). -/
def get_order (p : Path) : Nat := p.length

/-- Model of `TaskCounter.convert_to_str` (src/utils.py:156-159): the root sentinel for
the empty path, else the dot-terminated concatenation of the components. -/
def convert_to_str (p : Path) : String :=
  if p.isEmpty then "Исходная"
  else String.join (p.map (fun d => toString d ++ "."))

end TaskCounterM

namespace StatusM

/-- Model of `is_ancestor` (src/messages_meta_data_manager.py:111-118, inside
`update_all_messages_statuses`): `anc` is a (non-strict) prefix of `desc`;
the empty array counts as an ancestor of everything. -/
def is_ancestor (anc desc : List Nat) : Bool :=
  if anc.length > desc.length then false
  else List.range anc.length |>.all fun i => anc.getD i 0 == desc.getD i 0

/-- The status computed for one record by
`update_all_messages_statuses` (src/messages_meta_data_manager.py:120-144):
`arr` is the record's path, `current` the path of the last record.  Includes
the in-place typo fix of lines 139-142. -/
def classify (arr current : List Nat) : String :=
  if arr == current then
    "in_progress"
  else if is_ancestor arr current then
    "parent_for_current_task"
  else if is_ancestor current arr then
    "subtask_resolved"
  else
    if !arr.isEmpty && !current.isEmpty && arr.headD 0 == current.headD 0 then
      "resolved"
    else
      let s := "resolved_subtask_of_parent_not_importante_for_current"
      if s == "resolved_subtask_of_parent_not_importante_for_current" then
        "resolved_subtask_of_parent_not_important_for_current"
      else s

/-- One record of `MessagesWithMetaData.metadata_messages`, reduced to the
fields `update_all_messages_statuses` reads and writes: the task-path
snapshot and the status string. -/
structure Rec where
  path : List Nat
  status : String
deriving DecidableEq, Repr

/-- Model of `MessagesWithMetaData.update_all_messages_statuses`
(src/messages_meta_data_manager.py:98-144): the current path is the path of
the last record; every record's status is recomputed from its own path
relative to the current one.  An empty record list is returned unchanged. -/
def update_all_messages_statuses (l : List Rec) : List Rec :=
  match l.getLast? with
  | none => l
  | some last => l.map fun r => { r with status := classify r.path last.path }

/-- The five-way partition exactly as the specification words it
(spec.md §4.2): equal → in progress; `p` a strict prefix of `current`
(including the empty root path) → parent of current; `current` a strict
prefix of `p` → subtask resolved; same first component → resolved;
otherwise → resolved sibling branch not relevant.  Strict prefix is
`<+:` together with inequality. -/
def specClassify (p current : List Nat) : String :=
  if p = current then "in_progress"
  else if p <+: current then "parent_for_current_task"
  else if current <+: p then "subtask_resolved"
  else if p.headD 0 = current.headD 0 ∧ p ≠ [] ∧ current ≠ [] then "resolved"
  else "resolved_subtask_of_parent_not_important_for_current"

end StatusM

namespace TrimM

/-- One item of a multimodal message content list (src/message_manager.py:
`content` entries are `{type: text}` or `{type: image_url}`). -/
inductive CItem where
  | text (s : String)
  | image (url : String)
deriving DecidableEq, Repr

/-- A message's `content`: either a plain string (old format) or a list of
items (multimodal format), as distinguished by `isinstance(..., list)` in
src/LLM_manager.py. -/
inductive Content where
  | str (s : String)
  | parts (l : List CItem)
deriving DecidableEq, Repr

/-- One chat message `{role, content}`. -/
structure Msg where
  role : String
  content : Content
deriving DecidableEq, Repr

instance : Inhabited Msg := ⟨⟨"", .str ""⟩⟩

/-- Model of `ChatLLMAgent.__count_tokens_for_single_message`
(src/LLM_manager.py:370-405): 3 tokens per message, plus the encoder length
of each text part, plus 2840 per image.  `enc` is the tiktoken
encoder-length function, an environment parameter; no message built by this
codebase carries a `name` field, so the `tokens_per_name` branch is never
taken. -/
def count_tokens_for_single_message (enc : String → Nat) (m : Msg) : Nat :=
  3 + (match m.content with
       | .parts l => (l.map fun it => match it with
                       | .text s => enc s
                       | .image _ => 2840).sum
       | .str s => enc s)

/-- Model of `ChatLLMAgent.__count_tokens_for_all_messages`
(src/LLM_manager.py:407-420): sum over messages plus 3 closing tokens. -/
def count_tokens_for_all_messages (enc : String → Nat) (ms : List Msg) : Nat :=
  (ms.map (count_tokens_for_single_message enc)).sum + 3

/-- State threaded through `__trim_context`'s loops: the message list, the
parallel `token_counts` list, and the running `total_tokens`. -/
structure TrimSt where
  messages : List Msg
  counts : List Nat
  total : Nat
deriving Repr

/-- Deleting index `i` of both parallel lists and subtracting its token
count (the `del messages[i]; del token_counts[i]` blocks of
src/LLM_manager.py:451-453, 461-463, 471-473). -/
def delAt (st : TrimSt) (i : Nat) : TrimSt :=
  { messages := st.messages.eraseIdx i
    counts := st.counts.eraseIdx i
    total := st.total - st.counts.getD i 0 }

/-- The `any(...)` duplicate test of src/LLM_manager.py:445-448: some later
message is a system message with content equal to that of message `i`. -/
def dupLater (msgs : List Msg) (i : Nat) : Bool :=
  (msgs.drop (i + 1)).any fun m =>
    m.role == "system" && m.content == (msgs.getD i default).content

/-- One run of the inner `for i in range(start_index, len(messages) - 1)`
loop of src/LLM_manager.py:442-457, reported as the index it deletes:
scanning from `i`, stop with `none` at the first non-system message (the
`else: break`) or at the end of the range; stop with `some i` at the first
system message that has a later byte-identical duplicate.  `rem` bounds the
scan structurally. -/
def dedupScanAux (msgs : List Msg) : Nat → Nat → Option Nat
  | _, 0 => none
  | i, rem + 1 =>
    if i + 1 < msgs.length then
      if (msgs.getD i default).role == "system" then
        if dupLater msgs i then some i else dedupScanAux msgs (i + 1) rem
      else none
    else none

/-- The inner scan started at `start_index`. -/
def dedupScan (msgs : List Msg) (start : Nat) : Option Nat :=
  dedupScanAux msgs start msgs.length

/-- The first `while total_tokens > max_total_tokens and len(messages) >
start_index + 1` loop of src/LLM_manager.py:441-457.  When the scan deletes
nothing (`none`), the loop body leaves the state unchanged and the `while`
re-enters with the same state — exactly as in the source, where the inner
`break` only exits the `for`.  `fuel` bounds the iterations; `none` means the
fuel ran out, i.e. the loop did not terminate within `fuel` iterations. -/
def dedupLoop (start ceiling : Nat) : Nat → TrimSt → Option TrimSt
  | 0, _ => none
  | fuel + 1, st =>
    if st.total > ceiling ∧ st.messages.length > start + 1 then
      match dedupScan st.messages start with
      | some i => dedupLoop start ceiling fuel (delAt st i)
      | none => dedupLoop start ceiling fuel st
    else some st

/-- The second `while` loop of src/LLM_manager.py:460-463: evict the oldest
non-protected message while over the ceiling.  Each iteration deletes one
message, so `fuel := length + 1` always suffices; `none` is unreachable but
kept for type honesty. -/
def evictLoop (start ceiling : Nat) : Nat → TrimSt → Option TrimSt
  | 0, _ => none
  | fuel + 1, st =>
    if st.total > ceiling ∧ st.messages.length > start + 1 then
      evictLoop start ceiling fuel (delAt st start)
    else some st

/-- The backward `for i in range(len(messages)-1, start_index-1, -1)` loop
of src/LLM_manager.py:469-475: walking from the tail, delete system
messages, stopping as soon as the total is at or under the ceiling. -/
def backwardDel (start ceiling : Nat) : Nat → TrimSt → TrimSt
  | i, st =>
    if i < start then st
    else
      if (st.messages.getD i default).role == "system" then
        let st' := delAt st i
        if st'.total ≤ ceiling then st'
        else match i with
          | 0 => st'
          | j + 1 => backwardDel start ceiling j st'
      else match i with
        | 0 => st
        | j + 1 => backwardDel start ceiling j st

/-- Failure modes of the trim model: the `IndexError` that
`messages[0]["role"]` raises on an empty list, and fuel exhaustion standing
for a loop that did not terminate. -/
inductive TrimErr where
  | indexError
  | fuelOut
deriving DecidableEq, Repr

/-- Model of `ChatLLMAgent.__trim_context` (src/LLM_manager.py:422-481): token counts
per message, protected prefix (index 0 protected iff it is a system
message), then the three passes.  The tracer branch only logs and is
elided. -/
def trim_context (enc : String → Nat) (fuel : Nat) (messages : List Msg)
    (ceiling : Nat) : Except TrimErr (List Msg) :=
  if messages.isEmpty then .error .indexError
  else
    let counts := messages.map (count_tokens_for_single_message enc)
    let total := counts.sum
    let start := if (messages.headD default).role == "system" then 1 else 0
    match dedupLoop start ceiling fuel ⟨messages, counts, total⟩ with
    | none => .error .fuelOut
    | some st1 =>
      match evictLoop start ceiling (st1.messages.length + 1) st1 with
      | none => .error .fuelOut
      | some st2 =>
        let st3 := if st2.total > ceiling then
                     backwardDel start ceiling (st2.messages.length - 1) st2
                   else st2
        .ok st3.messages

end TrimM

namespace RetryM

/-- The exception classes relevant to the call layer
(openai SDK classes imported at src/LLM_manager.py:1, the repo's own
`DeepSeekRouterError` of line 27-29, and `ValueError` for configuration
mismatches). -/
inductive ApiErr where
  | rateLimit
  | apiTimeout
  | apiError
  | apiConnection
  | routerEmpty
  | valueError
deriving DecidableEq, Repr

/-- Model of `retry_if_exception_type((RateLimitError, APITimeoutError))` on the
direct backend's decorator (src/LLM_manager.py:315). -/
def openaiRetryable : ApiErr → Bool
  | .rateLimit => true
  | .apiTimeout => true
  | _ => false

/-- Model of `retry_if_exception_type((APIError, APIConnectionError, APITimeoutError,
RateLimitError, DeepSeekRouterError))` on the routing backend's decorator
(src/LLM_manager.py:523).  `RateLimitError`, `APIConnectionError` and
`APITimeoutError` are subclasses of `APIError` in the openai SDK, so the
whole family is retryable; `valueError` is not in the tuple. -/
def openrouterRetryable : ApiErr → Bool
  | .valueError => false
  | _ => true

/-- What escapes the decorated function: the original exception, or
tenacity's `RetryError` wrapping the last attempt's exception. -/
inductive RaisedErr where
  | original (e : ApiErr)
  | retryError (last : ApiErr)
deriving DecidableEq, Repr

/-- Models the semantics of the tenacity decorator
`@retry(stop=stop_after_attempt(bound), retry=retry_if_exception_type(T),
reraise=r)` used at src/LLM_manager.py:313-316 and 520-525: `attempt` is the
1-based attempt number, `rem` the number of further attempts still allowed.
A success returns as-is; an exception outside `T` is re-raised immediately;
an exception in `T` triggers another attempt while attempts remain, and when
they are exhausted tenacity re-raises the original exception if
`reraise=True` and otherwise raises `RetryError` (tenacity's documented
default, `reraise=False`).  Returns the number of attempts made together
with the outcome. -/
def retryFrom (retryable : ApiErr → Bool) (reraise : Bool)
    (outcomes : Nat → Except ApiErr String) :
    Nat → Nat → Nat × Except RaisedErr String
  | attempt, 0 =>
    match outcomes attempt with
    | .ok s => (attempt, .ok s)
    | .error e =>
      if retryable e then
        (attempt, .error (if reraise then .original e else .retryError e))
      else (attempt, .error (.original e))
  | attempt, rem + 1 =>
    match outcomes attempt with
    | .ok s => (attempt, .ok s)
    | .error e =>
      if retryable e then retryFrom retryable reraise outcomes (attempt + 1) rem
      else (attempt, .error (.original e))

/-- The decorated call with `stop_after_attempt(bound)`: attempts start at 1
with `bound - 1` retries available. -/
def retryCall (bound : Nat) (retryable : ApiErr → Bool) (reraise : Bool)
    (outcomes : Nat → Except ApiErr String) : Nat × Except RaisedErr String :=
  retryFrom retryable reraise outcomes 1 (bound - 1)

/-- The retry configuration of `__call_openai_api`
(src/LLM_manager.py:313-316): 10 attempts, rate-limit/timeout retryable,
and no `reraise=True` flag. -/
def openaiRetry (outcomes : Nat → Except ApiErr String) :
    Nat × Except RaisedErr String :=
  retryCall 10 openaiRetryable false outcomes

/-- The retry configuration of `__call_open_router_api`
(src/LLM_manager.py:520-525): 10 attempts, the full provider-error family
plus `DeepSeekRouterError` retryable, `reraise=True`. -/
def openrouterRetry (outcomes : Nat → Except ApiErr String) :
    Nat × Except RaisedErr String :=
  retryCall 10 openrouterRetryable true outcomes

end RetryM

namespace ConfigM

/-- The distinct `ValueError` configuration failures raised by
`ChatLLMAgent.__init__` (src/LLM_manager.py:60-73). -/
inductive CfgErr where
  | unknownProvider
  | openrouterModelWithOpenai
  | openaiModelWithOpenrouter
  | missingOpenaiCreds
  | missingOpenrouterKey
deriving DecidableEq, Repr

/-- Model of `model_name.count("/")`. -/
def countSlash (s : String) : Nat := s.toList.count '/'

/-- The validation block of `ChatLLMAgent.__init__`
(src/LLM_manager.py:60-73).  Credentials are strings where the empty string
stands for Python's falsy `None`/`""` (the code tests them with `not`).
Returns the configuration error the constructor raises, or `none` when
construction proceeds. -/
def agent_init_check (model_name provider openai_api_key openai_organization
    openrouter_api_key : String) : Option CfgErr :=
  if provider ≠ "openai" ∧ provider ≠ "openrouter" then some .unknownProvider
  else if provider = "openai" then
    if countSlash model_name ≠ 0 then some .openrouterModelWithOpenai
    else if openai_api_key = "" ∨ openai_organization = "" then some .missingOpenaiCreds
    else none
  else
    if countSlash model_name = 0 then some .openaiModelWithOpenrouter
    else if openrouter_api_key = "" then some .missingOpenrouterKey
    else none

/-- The per-call validation shared by `__call_openai_api`
(src/LLM_manager.py:328-336) and `__call_open_router_api`
(src/LLM_manager.py:532-541): the override model name defaults to the
agent's, then a name whose slash convention contradicts the provider raises
`ValueError`.  This sits before the `try` block with the provider request. -/
def call_model_check (provider defaultModel overrideModel : String) :
    Option CfgErr :=
  let model_name := if overrideModel = "" then defaultModel else overrideModel
  if provider = "openai" ∧ model_name ≠ "" ∧ countSlash model_name ≠ 0 then
    some .openrouterModelWithOpenai
  else if provider = "openrouter" ∧ model_name ≠ "" ∧ countSlash model_name = 0 then
    some .openaiModelWithOpenrouter
  else none

/-- One attempt of the decorated call body: the validation of
`call_model_check` runs first and raises `ValueError` before the provider
`request` oracle is ever consulted; only when it passes does the attempt
perform the request. -/
def call_attempt (provider defaultModel overrideModel : String)
    (request : Nat → Except RetryM.ApiErr String) (k : Nat) :
    Except RetryM.ApiErr String :=
  match call_model_check provider defaultModel overrideModel with
  | some _ => .error .valueError
  | none => request k

end ConfigM

namespace CtxM

open TrimM

/-- Model of `MessageContext` (src/message_manager.py:6-30): the injection mode, the
standing `task_prompt` (`""` models Python's falsy `None`), and the message
log. -/
structure MessageContext where
  mode : Nat
  task_prompt : String
  messages : List Msg
deriving DecidableEq, Repr

/-- The system message seeded from the standing instruction, in the
multimodal format all three modes build:
`{"role": "system", "content": [{"type": "text", "text": task_prompt}]}`. -/
def sysMsg (task_prompt : String) : Msg :=
  ⟨"system", .parts [.text task_prompt]⟩

/-- Model of `MessageContext.__add_message_mode_1` (src/message_manager.py:178-196):
a user append discards the whole log and re-seeds it; an assistant append
appends. -/
def add_message_mode_1 (ctx : MessageContext) (role : String)
    (content : List CItem) : MessageContext :=
  if role = "user" ∧ ctx.task_prompt ≠ "" then
    { ctx with messages := [sysMsg ctx.task_prompt, ⟨role, .parts content⟩] }
  else if role = "user" then
    { ctx with messages := [⟨role, .parts content⟩] }
  else
    { ctx with messages := ctx.messages ++ [⟨role, .parts content⟩] }

/-- Model of `MessageContext.__add_message_mode_2` (src/message_manager.py:198-213):
the standing instruction is seeded only into an empty log; every append goes
on top. -/
def add_message_mode_2 (ctx : MessageContext) (role : String)
    (content : List CItem) : MessageContext :=
  let seeded :=
    if ctx.task_prompt ≠ "" ∧ ctx.messages.isEmpty then
      ctx.messages ++ [sysMsg ctx.task_prompt]
    else ctx.messages
  { ctx with messages := seeded ++ [⟨role, .parts content⟩] }

/-- Model of `MessageContext.__add_message_mode_3` (src/message_manager.py:215-233):
a user append re-inserts the standing instruction right before it; an
assistant append does not. -/
def add_message_mode_3 (ctx : MessageContext) (role : String)
    (content : List CItem) : MessageContext :=
  if role = "user" ∧ ctx.task_prompt ≠ "" then
    { ctx with messages := ctx.messages ++ [sysMsg ctx.task_prompt, ⟨role, .parts content⟩] }
  else
    { ctx with messages := ctx.messages ++ [⟨role, .parts content⟩] }

/-- The mode dispatch shared by `add_user_message`
(src/message_manager.py:86-119) and `add_assistant_message`
(src/message_manager.py:143-176).  `imgs` are the already-converted image
items (`{"type": "image_url", ...}`); the URL/base64 conversion is
filesystem- and network-bound and outside the claims checked here. -/
def add_message (ctx : MessageContext) (role text : String)
    (imgs : List CItem) : MessageContext :=
  let content := CItem.text text :: imgs
  if ctx.mode = 1 then add_message_mode_1 ctx role content
  else if ctx.mode = 2 then add_message_mode_2 ctx role content
  else if ctx.mode = 3 then add_message_mode_3 ctx role content
  else ctx

def add_user_message (ctx : MessageContext) (text : String)
    (imgs : List CItem) : MessageContext :=
  add_message ctx "user" text imgs

def add_assistant_message (ctx : MessageContext) (text : String) :
    MessageContext :=
  add_message ctx "assistant" text []

/-- Model of `ChatLLMAgent.response_from_LLM` (src/LLM_manager.py:133-159): append
the user message to the stored context; take `get_message_history()` — a
copy of the stored list (src/message_manager.py:235-241) — and trim that
copy; send the trimmed copy to the model (`oracle`); on a `None` response
return the error string without touching the context further; otherwise
append the assistant message and return it.  The trim ceiling is
`max_total_tokens - max_response_tokens`. -/
def response_from_LLM (enc : String → Nat) (fuel : Nat)
    (max_total_tokens max_response_tokens : Nat)
    (oracle : List Msg → Option String) (ctx : MessageContext)
    (user_message : String) (imgs : List CItem) :
    Except TrimErr (MessageContext × String) :=
  let ctx1 := add_user_message ctx user_message imgs
  let history := ctx1.messages
  match trim_context enc fuel history (max_total_tokens - max_response_tokens) with
  | .error e => .error e
  | .ok trimmed =>
    match oracle trimmed with
    | none => .ok (ctx1, "Ошибка: не удалось получить ответ от API.")
    | some resp => .ok (add_assistant_message ctx1 resp, resp)

end CtxM

namespace RxM

/-- Case folding as applied by `str.lower()` and `re.IGNORECASE` to the
characters occurring in the translated patterns: ASCII `A-Z` and the
Cyrillic block `А-Я`. -/
def foldC (c : Char) : Char :=
  if 'A' ≤ c ∧ c ≤ 'Z' then Char.ofNat (c.toNat + 32)
  else if 0x410 ≤ c.toNat ∧ c.toNat ≤ 0x42F then Char.ofNat (c.toNat + 0x20)
  else c

/-- Lowercasing a character list (Python `str.lower()` restricted to the
alphabets appearing in the source). -/
def foldList (l : List Char) : List Char := l.map foldC

/-- Regular-expression abstract syntax sufficient for every pattern compiled
in src/LLM_manager.py: literals (optionally case-insensitive), single-char
classes, sequencing, alternation, starred classes (greedy or lazy — all
starred subexpressions in the source are character classes), optional
pieces, and numbered capturing groups. -/
inductive Rx where
  | emp
  | lit (ci : Bool) (s : String)
  | cls (p : Char → Bool)
  | seq (a b : Rx)
  | alt (a b : Rx)
  | star (lazy : Bool) (p : Char → Bool)
  | opt (a : Rx)
  | grp (i : Nat) (a : Rx)

/-- Literal-prefix test, case-insensitive when `ci` is set. -/
def litPrefix (ci : Bool) : List Char → List Char → Option (List Char)
  | [], cs => some cs
  | _ :: _, [] => none
  | p :: ps, c :: cs =>
    if (if ci then foldC p == foldC c else p == c) then litPrefix ci ps cs
    else none

/-- Candidate remainders for a starred class at the current position: all
drop counts from 0 to the maximal run, ordered longest-first for a greedy
star (Python backtracks from the maximal munch) and shortest-first for a
lazy one. -/
def starSuffixes (p : Char → Bool) (lazy : Bool) (cs : List Char) : List (List Char) :=
  let run := (cs.takeWhile p).length
  let sufs := (List.range (run + 1)).map fun k => cs.drop k
  if lazy then sufs else sufs.reverse

/-- Captured groups, in capture order; a later capture of the same group
number shadows an earlier one, as in Python. -/
abbrev Caps := List (Nat × String)

/-- First success of `f` over a list (the backtracking choice point). -/
def firstSome {α β : Type} : List α → (α → Option β) → Option β
  | [], _ => none
  | a :: as, f => (f a).orElse fun _ => firstSome as f

/-- Backtracking matcher in continuation style: `mtch r cs caps k` tries to
match `r` at the head of `cs` and passes the remainder and extended captures
to `k`, backtracking through alternation, optionality and stars exactly in
Python's order (left alternative first, greedy stars longest-first, lazy
stars shortest-first). -/
def mtch : Rx → List Char → Caps → (List Char → Caps → Option Caps) → Option Caps
  | .emp, cs, caps, k => k cs caps
  | .lit ci s, cs, caps, k =>
    match litPrefix ci s.toList cs with
    | some rest => k rest caps
    | none => none
  | .cls _, [], _, _ => none
  | .cls p, c :: cs, caps, k => if p c then k cs caps else none
  | .seq a b, cs, caps, k => mtch a cs caps fun cs' caps' => mtch b cs' caps' k
  | .alt a b, cs, caps, k =>
    (mtch a cs caps k).orElse fun _ => mtch b cs caps k
  | .star lazy p, cs, caps, k =>
    firstSome (starSuffixes p lazy cs) fun cs' => k cs' caps
  | .opt a, cs, caps, k =>
    (mtch a cs caps k).orElse fun _ => k cs caps
  | .grp i a, cs, caps, k =>
    mtch a cs caps fun cs' caps' =>
      k cs' (caps' ++ [(i, String.mk (cs.take (cs.length - cs'.length)))])

/-- Leftmost-match search (`re.search`): try to match at each start
position in turn and return the captures of the first success. -/
def searchAux (r : Rx) : List Char → Option Caps
  | [] => mtch r [] [] fun _ caps => some caps
  | c :: rest =>
    match mtch r (c :: rest) [] (fun _ caps => some caps) with
    | some caps => some caps
    | none => searchAux r rest

/-- Search over a string. -/
def rsearch (r : Rx) (s : String) : Option Caps :=
  searchAux r s.toList

/-- Failure modes of reading a group value off a match, as Python raises
them: `match.group(i)` with `i` above the pattern's group count raises
`IndexError: no such group`; calling `.lower()` on a `None` group value
would raise `AttributeError`. -/
inductive GrpErr where
  | noSuchGroup
  | noneValue
deriving DecidableEq, Repr

/-- Model of `match.group(i)` followed by use of the string: `gc` is the
number of groups in the compiled pattern. -/
def getGroup (caps : Caps) (gc i : Nat) : Except GrpErr String :=
  if i = 0 ∨ i > gc then .error .noSuchGroup
  else
    match (caps.reverse.find? fun c => c.1 == i) with
    | some c => .ok c.2
    | none => .error .noneValue

end RxM

namespace JsonM

/-- JSON values as produced by `json.loads`.  Numeric literals are kept as
their source text: no numeric field is ever inspected numerically by the
translated code. -/
inductive JVal where
  | str (s : String)
  | num (raw : String)
  | bool (b : Bool)
  | null
  | arr (l : List JVal)
  | obj (l : List (String × JVal))

/-- JSON whitespace. -/
def isWsJ (c : Char) : Bool := c == ' ' || c == '\t' || c == '\n' || c == '\r'

def skipWs (cs : List Char) : List Char := cs.dropWhile isWsJ

def hexVal (c : Char) : Option Nat :=
  if '0' ≤ c ∧ c ≤ '9' then some (c.toNat - 48)
  else if 'a' ≤ c ∧ c ≤ 'f' then some (c.toNat - 87)
  else if 'A' ≤ c ∧ c ≤ 'F' then some (c.toNat - 55)
  else none

/-- String body after the opening quote: plain characters, the JSON escape
sequences, and `\uXXXX`; unescaped control characters and unknown escapes
are errors, as in the strict `json.loads` default. -/
def parseStrBody : Nat → List Char → Option (List Char × List Char)
  | 0, _ => none
  | _ + 1, [] => none
  | fuel + 1, c :: cs =>
    if c == '"' then some ([], cs)
    else if c == '\\' then
      match cs with
      | [] => none
      | e :: cs' =>
        let dec : Option Char :=
          if e == '"' then some '"'
          else if e == '\\' then some '\\'
          else if e == '/' then some '/'
          else if e == 'b' then some (Char.ofNat 8)
          else if e == 'f' then some (Char.ofNat 12)
          else if e == 'n' then some '\n'
          else if e == 'r' then some '\r'
          else if e == 't' then some '\t'
          else none
        match dec with
        | some d =>
          match parseStrBody fuel cs' with
          | some (body, rest) => some (d :: body, rest)
          | none => none
        | none =>
          if e == 'u' then
            match cs' with
            | h1 :: h2 :: h3 :: h4 :: cs'' =>
              match hexVal h1, hexVal h2, hexVal h3, hexVal h4 with
              | some a, some b, some c3, some d4 =>
                match parseStrBody fuel cs'' with
                | some (body, rest) =>
                  some (Char.ofNat (((a * 16 + b) * 16 + c3) * 16 + d4) :: body, rest)
                | none => none
              | _, _, _, _ => none
            | _ => none
          else none
    else if c.toNat < 32 then none
    else
      match parseStrBody fuel cs with
      | some (body, rest) => some (c :: body, rest)
      | none => none

/-- Numeric literal: optional minus, integer part without leading zeros,
optional fraction, optional exponent; returned as its source text. -/
def parseNum (cs : List Char) : Option (String × List Char) :=
  let (sign, cs1) := match cs with
    | '-' :: rest => (['-'], rest)
    | _ => (([] : List Char), cs)
  match cs1 with
  | [] => none
  | d :: _ =>
    if !d.isDigit then none
    else
      let intPart := cs1.takeWhile Char.isDigit
      if intPart.length > 1 ∧ d == '0' then none
      else
        let cs2 := cs1.drop intPart.length
        let (frac, cs3) := match cs2 with
          | '.' :: rest =>
            let ds := rest.takeWhile Char.isDigit
            if ds.isEmpty then (([] : List Char), cs2)
            else ('.' :: ds, rest.drop ds.length)
          | _ => (([] : List Char), cs2)
        let (expo, cs4) := match cs3 with
          | e :: rest =>
            if e == 'e' || e == 'E' then
              let (es, rest') := match rest with
                | s :: r => if s == '+' || s == '-' then ([e, s], r) else ([e], rest)
                | [] => ([e], rest)
              let ds := rest'.takeWhile Char.isDigit
              if ds.isEmpty then (([] : List Char), cs3)
              else (es ++ ds, rest'.drop ds.length)
            else (([] : List Char), cs3)
          | [] => (([] : List Char), cs3)
        some (String.mk (sign ++ intPart ++ frac ++ expo), cs4)

mutual

/-- Recursive-descent value parser mirroring `json.loads`. -/
def parseJVal : Nat → List Char → Option (JVal × List Char)
  | 0, _ => none
  | fuel + 1, cs =>
    match skipWs cs with
    | [] => none
    | c :: rest =>
      if c == '"' then
        match parseStrBody (fuel + 1) rest with
        | some (body, rest') => some (.str (String.mk body), rest')
        | none => none
      else if c.toNat == 123 then
        parseObj fuel (skipWs rest) true
      else if c == '[' then
        parseArr fuel (skipWs rest) true
      else if c == 't' then
        match rest with
        | 'r' :: 'u' :: 'e' :: rest' => some (.bool true, rest')
        | _ => none
      else if c == 'f' then
        match rest with
        | 'a' :: 'l' :: 's' :: 'e' :: rest' => some (.bool false, rest')
        | _ => none
      else if c == 'n' then
        match rest with
        | 'u' :: 'l' :: 'l' :: rest' => some (.null, rest')
        | _ => none
      else if c == '-' || c.isDigit then
        match parseNum (c :: rest) with
        | some (raw, rest') => some (.num raw, rest')
        | none => none
      else none

/-- Object members after the opening brace (whitespace already skipped);
`first` marks that no member has been read yet, so a closing brace is
allowed immediately. -/
def parseObj : Nat → List Char → Bool → Option (JVal × List Char)
  | 0, _, _ => none
  | fuel + 1, cs, first =>
    match cs with
    | c :: rest =>
      if c.toNat == 125 ∧ first then some (.obj [], rest)
      else
        match parseMembers fuel cs with
        | some (l, rest') => some (.obj l, rest')
        | none => none
    | [] => none

/-- Non-empty comma-separated `"key": value` list plus the closing brace. -/
def parseMembers : Nat → List Char → Option (List (String × JVal) × List Char)
  | 0, _ => none
  | fuel + 1, cs =>
    match skipWs cs with
    | '"' :: rest =>
      match parseStrBody (fuel + 1) rest with
      | some (key, rest') =>
        match skipWs rest' with
        | ':' :: rest'' =>
          match parseJVal fuel rest'' with
          | some (v, rest3) =>
            match skipWs rest3 with
            | ',' :: rest4 =>
              match parseMembers fuel rest4 with
              | some (l, rest5) => some ((String.mk key, v) :: l, rest5)
              | none => none
            | c :: rest4 =>
              if c.toNat == 125 then some ([(String.mk key, v)], rest4) else none
            | [] => none
          | none => none
        | _ => none
      | none => none
    | _ => none

/-- Array elements after the opening bracket (whitespace already skipped). -/
def parseArr : Nat → List Char → Bool → Option (JVal × List Char)
  | 0, _, _ => none
  | fuel + 1, cs, first =>
    match cs with
    | ']' :: rest =>
      if first then some (.arr [], rest) else none
    | _ =>
      match parseElems fuel cs with
      | some (l, rest') => some (.arr l, rest')
      | none => none

/-- Non-empty comma-separated value list plus the closing bracket. -/
def parseElems : Nat → List Char → Option (List JVal × List Char)
  | 0, _ => none
  | fuel + 1, cs =>
    match parseJVal fuel cs with
    | some (v, rest) =>
      match skipWs rest with
      | ',' :: rest' =>
        match parseElems fuel rest' with
        | some (l, rest'') => some (v :: l, rest'')
        | none => none
      | ']' :: rest' => some ([v], rest')
      | _ => none
    | none => none

end

/-- Model of `json.loads`: parse one value and require only whitespace to
follow; `none` models `JSONDecodeError`. -/
def json_loads (s : String) : Option JVal :=
  match parseJVal (3 * s.length + 3) s.toList with
  | some (v, rest) => if (skipWs rest).isEmpty then some v else none
  | none => none

/-- Dictionary lookup with Python's duplicate-key semantics (the last
occurrence wins). -/
def objLookup (l : List (String × JVal)) (k : String) : Option JVal :=
  (l.reverse.find? fun kv => kv.1 == k).map fun kv => kv.2

end JsonM

namespace ParseM

open RxM

/-- Cyrillic lowercase а, б, в, г — the four action codes. -/
def chA : Char := Char.ofNat 0x430

def chB : Char := Char.ofNat 0x431

def chV : Char := Char.ofNat 0x432

def chG : Char := Char.ofNat 0x433

def strA : String := String.mk [chA]

def strB : String := String.mk [chB]

def strV : String := String.mk [chV]

def strG : String := String.mk [chG]

/-- Class `[абвг]` under `re.IGNORECASE`. -/
def letterCls (c : Char) : Bool :=
  let f := foldC c
  f == chA || f == chB || f == chV || f == chG

/-- Class `[abcd]` under `re.IGNORECASE`. -/
def latinCls (c : Char) : Bool :=
  let f := foldC c
  f == 'a' || f == 'b' || f == 'c' || f == 'd'

/-- Class `\s` (the whitespace characters occurring in these inputs). -/
def wsCls (c : Char) : Bool :=
  c == ' ' || c == '\t' || c == '\n' || c == '\r' ||
    c == Char.ofNat 11 || c == Char.ofNat 12

/-- Negated class `[^а-яА-Я]`. -/
def notRuCls (c : Char) : Bool :=
  !((0x430 ≤ c.toNat && c.toNat ≤ 0x44F) || (0x410 ≤ c.toNat && c.toNat ≤ 0x42F))

/-- Class `.` under `re.DOTALL`. -/
def anyCls (_ : Char) : Bool := true

/-- Negated class `[^{]`. -/
def notOpenBrace (c : Char) : Bool := c.toNat != 123

/-- Negated class `[^}]`. -/
def notCloseBrace (c : Char) : Bool := c.toNat != 125

/-- Right-nested sequence of regex pieces. -/
def rxSeq (l : List Rx) : Rx := l.foldr .seq .emp

/-- Pattern `(действие|action|вариант|выбор|решение)[^а-яА-Я]*([абвг])\)`
(src/LLM_manager.py:1074), compiled with `re.IGNORECASE`; 2 groups. -/
def pat1 : Rx :=
  rxSeq [.grp 1 (.alt (.lit true "действие")
           (.alt (.lit true "action")
             (.alt (.lit true "вариант")
               (.alt (.lit true "выбор") (.lit true "решение"))))),
         .star false notRuCls, .grp 2 (.cls letterCls), .lit true ")"]

/-- Pattern `([абвг])\s*\)` (src/LLM_manager.py:1075); 1 group. -/
def pat2 : Rx :=
  rxSeq [.grp 1 (.cls letterCls), .star false wsCls, .lit true ")"]

/-- Pattern `"action"\s*:\s*"([абвг])"` (src/LLM_manager.py:1076); 1 group. -/
def pat3 : Rx :=
  rxSeq [.lit true "\"action\"", .star false wsCls, .lit true ":",
         .star false wsCls, .lit true "\"", .grp 1 (.cls letterCls),
         .lit true "\""]

/-- Pattern `действие\s*([абвг])` (src/LLM_manager.py:1077); 1 group. -/
def pat4 : Rx :=
  rxSeq [.lit true "действие", .star false wsCls, .grp 1 (.cls letterCls)]

/-- Pattern `выбираю\s*([абвг])` (src/LLM_manager.py:1078); 1 group. -/
def pat5 : Rx :=
  rxSeq [.lit true "выбираю", .star false wsCls, .grp 1 (.cls letterCls)]

/-- Pattern \x60\x60\x60(?:json)?\s*(\x7b.*?\x7d)\s*\x60\x60\x60 with
`re.DOTALL` (src/LLM_manager.py:1041): a fenced code block holding a braced
body, captured lazily; 1 group. -/
def jsonRx1 : Rx :=
  rxSeq [.lit false "```", .opt (.lit false "json"), .star false wsCls,
         .grp 1 (rxSeq [.lit false "\x7b", .star true anyCls, .lit false "\x7d"]),
         .star false wsCls, .lit false "```"]

/-- Pattern (\x7b[^\x7b]*"action"[^\x7d]*\x7d) with `re.DOTALL`
(src/LLM_manager.py:1044): an unfenced braced body naming "action";
1 group. -/
def jsonRx2 : Rx :=
  .grp 1 (rxSeq [.lit false "\x7b", .star false notOpenBrace,
                 .lit false "\"action\"", .star false notCloseBrace,
                 .lit false "\x7d"])

/-- Exceptions `parsing_action_function` can raise:
`IndexError: no such group` from `match.group(letter_group)` and
`AttributeError` from `.lower()` on a non-string `action` value. -/
inductive PErr where
  | noSuchGroup
  | attrErr
deriving DecidableEq, Repr

/-- Lowercase a string (Python `.lower()` over the alphabets in use). -/
def lowerStr (s : String) : String := String.mk (foldList s.toList)

/-- Stage 1 of `parsing_action_function` (src/LLM_manager.py:1040-1069):
find a JSON candidate with the fenced regex, else with the unfenced one;
`json.loads` it; on a dict with an `action` field, lowercase the value and
map the Latin or Cyrillic letter to the canonical Cyrillic code.  `none`
means this stage falls through (no candidate, decode error, missing field,
or a nonstandard value). -/
def jsonActionStage (answer : String) : Option (Except PErr String) :=
  let m := match rsearch jsonRx1 answer with
    | some caps => some caps
    | none => rsearch jsonRx2 answer
  match m with
  | none => none
  | some caps =>
    match getGroup caps 1 1 with
    | .error _ => none
    | .ok json_str =>
      match JsonM.json_loads json_str with
      | none => none
      | some v =>
        match v with
        | .obj fields =>
          match JsonM.objLookup fields "action" with
          | none => none
          | some (.str a) =>
            let a := lowerStr a
            if a = "a" ∨ a = strA then some (.ok strA)
            else if a = "b" ∨ a = strB then some (.ok strB)
            else if a = "c" ∨ a = strV then some (.ok strV)
            else if a = "d" ∨ a = strG then some (.ok strG)
            else none
          | some _ => some (.error .attrErr)
        | _ => none

/-- Stage 2 of `parsing_action_function` (src/LLM_manager.py:1071-1088):
try the five contextual patterns in order; on the first match extract
`match.group(letter_group)` where `letter_group` is 1 exactly for the bare
`([абвг])\s*\)` pattern and 2 for every other pattern — as computed by the
`letter_group = 1 if pattern == ... else 2` line — and lowercase it.
The second component of each triple is the pattern's group count, the third
the `letter_group` used. -/
def patternStage (answer : String) : Option (Except PErr String) :=
  let pats : List (Rx × Nat × Nat) :=
    [(pat1, 2, 2), (pat2, 1, 1), (pat3, 1, 2), (pat4, 1, 2), (pat5, 1, 2)]
  go pats
where
  go : List (Rx × Nat × Nat) → Option (Except PErr String)
    | [] => none
    | (p, gc, lg) :: rest =>
      match rsearch p answer with
      | some caps =>
        match getGroup caps gc lg with
        | .ok letter => some (.ok (lowerStr letter))
        | .error _ => some (.error .noSuchGroup)
      | none => go rest

/-- Stage 3 (src/LLM_manager.py:1090-1096): leftmost bare occurrence of one
of the four Cyrillic letters, case-insensitively, lowercased. -/
def bareCyrStage (answer : String) : Option String :=
  (answer.toList.find? letterCls).map fun c => String.mk [foldC c]

/-- Stage 4 (src/LLM_manager.py:1098-1106): leftmost Latin `[abcd]`,
case-insensitively, converted to the canonical Cyrillic letter. -/
def latinStage (answer : String) : Option String :=
  (answer.toList.find? latinCls).map fun c =>
    let f := foldC c
    if f = 'a' then strA else if f = 'b' then strB
    else if f = 'c' then strV else strG

/-- The keyword table of src/LLM_manager.py:1109-1114, in dict insertion
order. -/
def keywordsList : List (String × String) :=
  [("удовлетворяет", strA), ("завершено", strA), ("готово", strA),
   ("успешно", strA), ("соответствует", strA),
   ("исправить", strB), ("легк", strB), ("пересобрать", strB),
   ("незначительн", strB),
   ("продолжить", strV), ("неполн", strV), ("дополнить", strV),
   ("доработать", strV),
   ("серьезн", strG), ("сложн", strG), ("декомпозиц", strG),
   ("разбить", strG), ("подзадач", strG)]

/-- Substring containment over char lists. -/
def containsSub (hay needle : List Char) : Bool :=
  hay.tails.any fun t => needle.isPrefixOf t

/-- Stage 5 (src/LLM_manager.py:1108-1120): first keyword contained in the
lowercased answer, in table order. -/
def keywordStage (answer : String) : Option String :=
  let low := foldList answer.toList
  (keywordsList.find? fun kv => containsSub low kv.1.toList).map fun kv => kv.2

/-- Model of `parsing_action_function` (src/LLM_manager.py:1029-1126): the
five stages in source order, with the default `'г'` (decompose) when none
matches.  A raised exception (`IndexError`/`AttributeError`) propagates. -/
def parsing_action_function (answer : String) : Except PErr String :=
  match jsonActionStage answer with
  | some r => r
  | none =>
    match patternStage answer with
    | some r => r
    | none =>
      match bareCyrStage answer with
      | some s => .ok s
      | none =>
        match latinStage answer with
        | some s => .ok s
        | none =>
          match keywordStage answer with
          | some s => .ok s
          | none => .ok strG

end ParseM

namespace ParseM

open RxM

/-- Rendering of a JSON field value interpolated by the f-string
`f"{title}: {goal}"` (strings as-is, numbers/booleans/null via their Python
text; the prompts only ever produce string fields here). -/
def strOfJ : JsonM.JVal → String
  | .str s => s
  | .num raw => raw
  | .bool true => "True"
  | .bool false => "False"
  | .null => "None"
  | .arr _ => ""
  | .obj _ => ""

/-- One line matched against the numbered-list pattern
`(?m)^\s*\d+[\.\)]\s+(.+)$` (src/LLM_manager.py:1174): optional leading
whitespace, at least one digit, a dot or closing parenthesis, at least one
whitespace character, then the captured non-empty rest of the line. -/
def lineSubtask (l : List Char) : Option String :=
  let l1 := l.dropWhile wsCls
  let ds := l1.takeWhile Char.isDigit
  if ds.isEmpty then none
  else
    match l1.drop ds.length with
    | sep :: l2 =>
      if sep == '.' || sep == ')' then
        let sp := l2.takeWhile wsCls
        let rest := l2.drop sp.length
        if sp.isEmpty || rest.isEmpty then none
        else some (String.mk rest)
      else none
    | [] => none

/-- Python `str.strip()`. -/
def stripWs (s : String) : String :=
  String.mk (((s.toList.dropWhile wsCls).reverse.dropWhile wsCls).reverse)

/-- Splitting into lines at newline characters (the line boundaries the
`(?m)` anchors recognise in these inputs). -/
def splitLines : List Char → List (List Char)
  | [] => [[]]
  | c :: rest =>
    let r := splitLines rest
    if c == '\n' then [] :: r
    else (c :: r.headD []) :: r.tail

/-- Model of `parsing_decompose_task_function` (src/LLM_manager.py:1128-1185):
first try a fenced JSON block with a `subtasks` list of `{title, goal}`
objects, rendering each as "title: goal" (or whichever field is present and
non-empty); otherwise collect the numbered-list lines, stripped; otherwise
the empty list. -/
def parsing_decompose_task_function (answer : String) : List String :=
  let fromJson : Option (List String) :=
    match rsearch jsonRx1 answer with
    | none => none
    | some caps =>
      match getGroup caps 1 1 with
      | .error _ => none
      | .ok js =>
        match JsonM.json_loads js with
        | none => none
        | some (.obj fields) =>
          match JsonM.objLookup fields "subtasks" with
          | some (.arr tasks) =>
            let subtasks := tasks.filterMap fun t =>
              match t with
              | .obj tf =>
                let title := strOfJ ((JsonM.objLookup tf "title").getD (.str ""))
                let goal := strOfJ ((JsonM.objLookup tf "goal").getD (.str ""))
                let task_str :=
                  if title ≠ "" ∧ goal ≠ "" then title ++ ": " ++ goal
                  else if title ≠ "" then title else goal
                if task_str ≠ "" then some task_str else none
              | _ => none
            if subtasks.isEmpty then none else some subtasks
          | _ => none
        | some _ => none
  match fromJson with
  | some l => l
  | none =>
    ((splitLines answer.toList).filterMap lineSubtask).map stripWs

end ParseM

namespace EngM

open ParseM

/-- Observable events of one engine run, in order: each
`response_from_LLM` round trip (numbered), each entry to `solve_task` with
the depth argument and the shared counter before and after the
`max(current_llm_calling_count, current_depth)` update plus the
`skip_solution_generation` flag, the three phases of the solve step, the
budget `RecursionError` raise, the appending of the integration instruction
after a decomposition's subtasks, the recovery call of
`handle_recursion_limit_exceeded`, and the unconditional final formatting
call. -/
inductive Ev where
  | llmCall (idx : Nat)
  | enterSolve (depth before after : Nat) (skip : Bool)
  | draftPhase
  | verifyPhase
  | decidePhase (code : String)
  | budgetRaise
  | integrate
  | recoveryCall
  | finalFormatCall
deriving DecidableEq, Repr

/-- Errors crossing the engine's recursion: the budget `RecursionError`
(src/LLM_manager.py:1241), an exception escaping the action parser, a
`TaskCounter` exception, and exhaustion of the model's step fuel. -/
inductive EErr where
  | budget
  | parseCrash (e : PErr)
  | counterCrash
  | fuelOut
deriving DecidableEq, Repr

/-- The engine's mutable state: the shared `current_llm_calling_count`
closure variable, the record store's `TaskCounter`, the number of
`response_from_LLM` calls made, and the event log.  The conversation
message texts and status annotations do not feed back into control flow and
are not tracked. -/
structure St where
  c : Nat
  tc : List Nat
  calls : Nat
  log : List Ev
deriving DecidableEq, Repr

/-- Run parameters: `max_llm_calling_count` and the model's reply to the
`n`-th `response_from_LLM` call of the run. -/
structure Cfg where
  maxCalls : Nat
  oracle : Nat → String

/-- One `response_from_LLM` round trip: consume the next oracle reply. -/
def llm (cfg : Cfg) (st : St) : String × St :=
  (cfg.oracle st.calls,
   { st with calls := st.calls + 1, log := st.log ++ [.llmCall st.calls] })

/-- The three generic default subtasks substituted when
`parsing_decompose_task_function` returns an empty list
(src/LLM_manager.py:1521-1525). -/
def defaultSubtasks : List String :=
  ["Анализ задачи: изучить условия, выявить ключевые элементы и требования, определить тип задачи и применимые методы решения",
   "Разработка стратегии: определить наиболее эффективный подход к решению, выделить основные шаги, предусмотреть возможные трудности",
   "Реализация решения: последовательно применить выбранную стратегию, формализовать каждый шаг, получить конкретный результат"]

mutual

/-- Model of the nested `solve_task(current_depth, skip_solution_generation)`
(src/LLM_manager.py:1224-1611).  The entry updates the shared counter to
`max(counter, current_depth)` and raises the budget `RecursionError` when it
exceeds `max_llm_calling_count`; unless skipped, the solution-generation
call runs; then the verification and action-selection calls; the action code
is parsed by `parsing_action_function`; `'а'` returns, `'б'`/`'в'` recurse
with `counter + 3`, and `'г'` runs the decomposition call, parses subtasks
(substituting the three defaults when none parse), descends the task
counter, solves each subtask via `recursion` (stepping the sibling digit
from the second one on), ascends, appends the integration instruction and
re-enters `solve_task(current_llm_calling_count, skip_solution_generation=False)`.
An unrecognised code falls off the dispatch and returns Python's implicit
`None`, modelled as `Option.none`.  `fuel` bounds the model's step depth. -/
def solve_task (cfg : Cfg) : Nat → Nat → Bool → St → Except EErr (Option String) × St
  | 0, _, _, st => (.error .fuelOut, st)
  | fuel + 1, current_depth, skip, st =>
    let after := max st.c current_depth
    let st := { st with
                c := after
                log := st.log ++ [.enterSolve current_depth st.c after skip] }
    if after > cfg.maxCalls then
      (.error .budget, { st with log := st.log ++ [.budgetRaise] })
    else
      let st := if skip then st
        else
          let (_, st) := llm cfg st
          { st with log := st.log ++ [.draftPhase] }
      let (_, st) := llm cfg st
      let st := { st with log := st.log ++ [.verifyPhase] }
      let (action_txt, st) := llm cfg st
      match parsing_action_function action_txt with
      | .error e => (.error (.parseCrash e), st)
      | .ok code =>
        let st := { st with log := st.log ++ [.decidePhase code] }
        if code = strA then (.ok (some "accepted_solution"), st)
        else if code = strB then solve_task cfg fuel (st.c + 3) false st
        else if code = strV then solve_task cfg fuel (st.c + 3) false st
        else if code = strG then
          let (decompose_answer, st) := llm cfg st
          let subtasks := parsing_decompose_task_function decompose_answer
          let subtasks := if subtasks.isEmpty then defaultSubtasks else subtasks
          let st := { st with tc := TaskCounterM.increase_order st.tc }
          match solveSubtasks cfg fuel subtasks true st with
          | (.error e, st) => (.error e, st)
          | (.ok _, st) =>
            match TaskCounterM.reduce_order st.tc with
            | .error _ => (.error .counterCrash, st)
            | .ok tc' =>
              let st := { st with tc := tc', log := st.log ++ [.integrate] }
              solve_task cfg fuel st.c false st
        else (.ok none, st)

/-- The `for i, sub in enumerate(subtasks)` loop of
src/LLM_manager.py:1539-1569: every subtask after the first steps the
sibling digit, then each is solved through `recursion` with
`current_depth = counter + 4`. -/
def solveSubtasks (cfg : Cfg) : Nat → List String → Bool → St → Except EErr Unit × St
  | 0, _, _, st => (.error .fuelOut, st)
  | _ + 1, [], _, st => (.ok (), st)
  | fuel + 1, sub :: rest, isFirst, st =>
    let stepped : Except EErr St :=
      if isFirst then .ok st
      else
        match TaskCounterM.increase_digit st.tc with
        | .error _ => .error .counterCrash
        | .ok tc' => .ok { st with tc := tc' }
    match stepped with
    | .error e => (.error e, st)
    | .ok st =>
      match recursion cfg fuel sub (st.c + 4) st with
      | (.error e, st) => (.error e, st)
      | (.ok _, st) => solveSubtasks cfg fuel rest false st

/-- Model of the nested `recursion(task_text, task_images, current_depth)`
(src/LLM_manager.py:1617-1765): append the task statement (no call), run
the theory and quality-criteria calls, then `solve_task(counter + 2)`.  The
task text itself only feeds the conversation log and is unused here. -/
def recursion (cfg : Cfg) : Nat → String → Nat → St → Except EErr (Option String) × St
  | 0, _, _, st => (.error .fuelOut, st)
  | fuel + 1, _task_text, _current_depth, st =>
    let (_, st) := llm cfg st
    let (_, st) := llm cfg st
    solve_task cfg fuel (st.c + 2) false st

end

/-- Model of `handle_recursion_limit_exceeded` (src/LLM_manager.py:1187-1222):
a single recovery `response_from_LLM` call producing a best-effort answer. -/
def handle_recursion_limit_exceeded (cfg : Cfg) (st : St) : String × St :=
  let (recovery_response, st) := llm cfg st
  (recovery_response, { st with log := st.log ++ [.recoveryCall] })

/-- Model of the top level of
`response_from_LLM_with_hierarchical_recursive_decomposition`
(src/LLM_manager.py:1783-1915): reset the counter, seed the root
instruction (no call), run `recursion` on the user task at depth 0; a
budget `RecursionError` is caught and answered by the single recovery call,
any other exception propagates; then the counter is reset again and the one
unconditional final formatting call produces the returned answer. -/
def engineTop (cfg : Cfg) (fuel : Nat) (user_message : String) :
    Except EErr String × St :=
  let st : St := ⟨0, [], 0, []⟩
  match recursion cfg fuel user_message 0 st with
  | (.ok _, st) =>
    let st := { st with c := 0 }
    let (final_formatted_result, st) := llm cfg st
    (.ok final_formatted_result, { st with log := st.log ++ [.finalFormatCall] })
  | (.error .budget, st) =>
    let (_, st) := handle_recursion_limit_exceeded cfg st
    let st := { st with c := 0 }
    let (final_formatted_result, st) := llm cfg st
    (.ok final_formatted_result, { st with log := st.log ++ [.finalFormatCall] })
  | (.error e, st) => (.error e, st)

/-- The concrete run exercising the decomposition re-entry: the
action-selection call of the root node (call number 4) answers `'г'`, the
decomposition call (number 5) answers a one-item numbered list, and every
other call answers `'а'`, so the single subtask is accepted on its first
pass and the re-entered parent is then accepted. -/
def decomposeRun : Except EErr String × St :=
  engineTop ⟨1000, fun n => if n = 4 then strG else if n = 5 then "1. x" else strA⟩ 40 "задача"

/-- The event log `decomposeRun` produces (proved equal in
`decomposeRun_eval`). -/
def decomposeRunLog : List Ev :=
  [.llmCall 0, .llmCall 1, .enterSolve 2 0 2 false, .llmCall 2, .draftPhase,
   .llmCall 3, .verifyPhase, .llmCall 4, .decidePhase ParseM.strG, .llmCall 5,
   .llmCall 6, .llmCall 7, .enterSolve 4 2 4 false, .llmCall 8, .draftPhase,
   .llmCall 9, .verifyPhase, .llmCall 10, .decidePhase ParseM.strA, .integrate,
   .enterSolve 4 4 4 false, .llmCall 11, .draftPhase, .llmCall 12,
   .verifyPhase, .llmCall 13, .decidePhase ParseM.strA, .llmCall 14,
   .finalFormatCall]

end EngM

/-- The C4 failing input: a protected system message, a user message, and a
duplicated system message beyond it. -/
def dedupInput : List TrimM.Msg :=
  [⟨"system", .str "A"⟩, ⟨"user", .str "B"⟩,
   ⟨"system", .str "C"⟩, ⟨"system", .str "C"⟩]

/-- The C6 failing input: two over-ceiling user messages. -/
def trimInput : List TrimM.Msg :=
  [⟨"user", .str "hello"⟩, ⟨"user", .str "world"⟩]

/-- Whether an escaped exception is the original error class (rather than a
wrapper). -/
def isOriginalErr : Except RetryM.RaisedErr String → Bool
  | .error (.original _) => true
  | _ => false

/-- The all-transient outcome stream: every attempt hits a rate limit. -/
def allRateLimited : Nat → Except RetryM.ApiErr String :=
  fun _ => .error .rateLimit

/-- Concrete outcome stream for the C3 witness: two rate limits, then
success. -/
def twoThenOk : Nat → Except RetryM.ApiErr String :=
  fun k => if k ≤ 2 then .error .rateLimit else .ok "done"

/-- A mode-1 context holding a prior assistant message. -/
def mode1Ctx : CtxM.MessageContext :=
  ⟨1, "TP", [⟨"assistant", .parts [.text "old"]⟩]⟩

/-- The stored message list after a mode-1 `response_from_LLM` call on
`mode1Ctx`. -/
def mode1After : List TrimM.Msg :=
  [CtxM.sysMsg "TP", ⟨"user", .parts [.text "hi"]⟩,
   ⟨"assistant", .parts [.text "ok"]⟩]

/-- The log-evolution invariant of one engine step: the new log keeps every
old event; every new event is not a recovery call, satisfies the
counter-update equation when it is a solve entry, and can only be the
budget raise when the step's result is the budget error; and a budget
result guarantees the raise event was logged. -/
def StepOk (oldLog newLog : List EngM.Ev) (isB : Prop) : Prop :=
  (∀ e ∈ oldLog, e ∈ newLog)
  ∧ (∀ e ∈ newLog, e ∈ oldLog ∨
      (e ≠ EngM.Ev.recoveryCall
        ∧ (∀ d b a sk, e = EngM.Ev.enterSolve d b a sk → a = max b d)
        ∧ (e = EngM.Ev.budgetRaise → isB)))
  ∧ (isB → EngM.Ev.budgetRaise ∈ newLog)

/-- Whether an event, if it is a solve-step entry, strictly increased the
shared counter (what C2's "increments" asserts of every entry). -/
def incrementsAt : EngM.Ev → Bool
  | .enterSolve _ b a _ => decide (b < a)
  | _ => true

/-- Oracle of the budget-exhaustion witness run: the decide call answers
repair, everything else accept. -/
def budgetOracle : Nat → String :=
  fun n => if n = 4 then ParseM.strB else ParseM.strA

/-- Final state of `engineTop ⟨3, budgetOracle⟩ 10`: the repair re-entry
pushes the counter to 5 > 3, the budget raise unwinds, one recovery call
and the final formatting call follow. -/
def budgetRunSt : EngM.St :=
  ⟨0, [], 7,
   [.llmCall 0, .llmCall 1, .enterSolve 2 0 2 false, .llmCall 2, .draftPhase,
    .llmCall 3, .verifyPhase, .llmCall 4, .decidePhase ParseM.strB,
    .enterSolve 5 2 5 false, .budgetRaise, .llmCall 5, .recoveryCall,
    .llmCall 6, .finalFormatCall]⟩

theorem is_ancestor_cons (x y : Nat) (xs ys : List Nat) :
    StatusM.is_ancestor (x :: xs) (y :: ys) =
      ((x == y) && StatusM.is_ancestor xs ys) := by
  unfold StatusM.is_ancestor
  by_cases h : xs.length > ys.length
  · simp only [List.length_cons]
    rw [if_pos (by omega), if_pos h]
    simp
  · simp only [List.length_cons]
    rw [if_neg (by omega), if_neg h]
    rw [List.range_succ_eq_map]
    simp only [List.all_cons, List.all_map, List.getD_cons_zero]
    congr 1

theorem is_ancestor_iff (a b : List Nat) :
    StatusM.is_ancestor a b = true ↔ a <+: b := by
  induction a generalizing b with
  | nil => simp [StatusM.is_ancestor]
  | cons x xs ih =>
    cases b with
    | nil =>
      simp only [StatusM.is_ancestor, List.length_cons, List.length_nil]
      rw [if_pos (by omega)]
      simp
    | cons y ys =>
      rw [is_ancestor_cons]
      simp only [Bool.and_eq_true, beq_iff_eq, ih, List.cons_prefix_cons]

theorem classify_eq_specClassify (p c : List Nat) :
    StatusM.classify p c = StatusM.specClassify p c := by
  unfold StatusM.classify StatusM.specClassify
  by_cases h1 : p = c
  · simp [h1]
  · rw [if_neg (by simpa using h1), if_neg h1]
    by_cases h2 : p <+: c
    · rw [if_pos (by rw [is_ancestor_iff]; exact h2), if_pos h2]
    · rw [if_neg (by rw [is_ancestor_iff]; exact h2), if_neg h2]
      by_cases h3 : c <+: p
      · rw [if_pos (by rw [is_ancestor_iff]; exact h3), if_pos h3]
      · rw [if_neg (by rw [is_ancestor_iff]; exact h3), if_neg h3]
        have hcond : (!p.isEmpty && !c.isEmpty && (p.headD 0 == c.headD 0)) = true ↔
            (p.headD 0 = c.headD 0 ∧ p ≠ [] ∧ c ≠ []) := by
          simp only [Bool.and_eq_true, Bool.not_eq_true', beq_iff_eq]
          constructor
          · rintro ⟨⟨hp, hc⟩, hh⟩
            refine ⟨hh, ?_, ?_⟩ <;> simp_all [List.isEmpty_iff]
          · rintro ⟨hh, hp, hc⟩
            refine ⟨⟨?_, ?_⟩, hh⟩ <;> simp_all [List.isEmpty_iff]
        by_cases h4 : p.headD 0 = c.headD 0 ∧ p ≠ [] ∧ c ≠ []
        · rw [if_pos (hcond.mpr h4), if_pos h4]
        · rw [if_neg (fun hb => h4 (hcond.mp hb)), if_neg h4]
          rfl

/-- C5: the status recomputation of every record is the pure five-way
partition of (record path, current path) stated in spec.md §4.2, and
recomputing twice with an unchanged current path equals recomputing once. -/
theorem status_partition_and_idempotent :
    (∀ p current, StatusM.classify p current = StatusM.specClassify p current)
    ∧ ∀ l : List StatusM.Rec,
        StatusM.update_all_messages_statuses (StatusM.update_all_messages_statuses l) =
          StatusM.update_all_messages_statuses l := by
  refine ⟨classify_eq_specClassify, fun l => ?_⟩
  cases hl : l.getLast? with
  | none =>
    have : l = [] := List.getLast?_eq_none_iff.mp hl
    subst this
    rfl
  | some last =>
    have h1 : StatusM.update_all_messages_statuses l =
        l.map fun r => { r with status := StatusM.classify r.path last.path } := by
      unfold StatusM.update_all_messages_statuses
      rw [hl]
    have h2 : (l.map fun r =>
        ({ r with status := StatusM.classify r.path last.path } : StatusM.Rec)).getLast? =
        some { last with status := StatusM.classify last.path last.path } := by
      rw [List.getLast?_map, hl]
      rfl
    rw [h1]
    unfold StatusM.update_all_messages_statuses
    rw [h2]
    dsimp only
    rw [List.map_map]
    rfl

/-- C7: descending then ascending the task path is the identity, and both
the sibling step and the ascend raise on the empty root path (the raise
precedes any mutation, so the path stays empty). -/
theorem taskpath_push_pop_identity_and_root_raises :
    (∀ p : TaskCounterM.Path,
        TaskCounterM.reduce_order (TaskCounterM.increase_order p) = .ok p)
    ∧ (TaskCounterM.increase_digit [] =
        .error "Попытка увеличить номер задачи для Исходная")
    ∧ (TaskCounterM.reduce_order [] =
        .error "Попытка уменьшить порядок у Исходная задача") := by
  refine ⟨fun p => ?_, rfl, rfl⟩
  unfold TaskCounterM.reduce_order TaskCounterM.increase_order
  rw [if_neg (by simp)]
  simp

theorem dedupLoop_stuck (start ceiling : Nat) (st : TrimM.TrimSt)
    (h1 : st.total > ceiling) (h2 : st.messages.length > start + 1)
    (h3 : TrimM.dedupScan st.messages start = none) :
    ∀ fuel, TrimM.dedupLoop start ceiling fuel st = none := by
  intro fuel
  induction fuel with
  | zero => rfl
  | succ n ih =>
    unfold TrimM.dedupLoop
    rw [if_pos ⟨h1, h2⟩, h3]
    exact ih

/-- C4 (code bug): on `dedupInput` over the ceiling, the system message at
index 2 has a byte-identical later duplicate, yet the scan from the
protected boundary deletes nothing (the `else: break` stops it at the user
message at index 1), and because the inner `break` leaves the outer `while`
condition untouched, trimming never terminates — for any token encoder and
any amount of fuel — instead of deleting the earlier duplicate. -/
theorem trim_dedup_misses_duplicate_and_hangs :
    ((dedupInput.getD 2 default).role = "system"
      ∧ TrimM.dupLater dedupInput 2 = true)
    ∧ TrimM.dedupScan dedupInput 1 = none
    ∧ ∀ (enc : String → Nat) (fuel : Nat),
        TrimM.trim_context enc fuel dedupInput 0 = .error .fuelOut := by
  refine ⟨⟨rfl, rfl⟩, rfl, fun enc fuel => ?_⟩
  unfold TrimM.trim_context
  rw [if_neg (by decide)]
  have hscan : TrimM.dedupScan dedupInput 1 = none := rfl
  have hstuck := dedupLoop_stuck 1 0
    ⟨dedupInput, dedupInput.map (TrimM.count_tokens_for_single_message enc),
     (dedupInput.map (TrimM.count_tokens_for_single_message enc)).sum⟩
    (by simp [dedupInput, TrimM.count_tokens_for_single_message])
    (by show dedupInput.length > 1 + 1; decide) hscan fuel
  simp only [show (if ((dedupInput.headD default).role == "system") = true then 1 else 0) = 1
        from rfl, hstuck]

/-- C6 (code bug): trimming does not terminate on `trimInput` with ceiling
0 — the first `while` loop's body makes no change once the scan stops at the
non-system first message, yet the loop condition stays true — for any token
encoder and any amount of fuel. -/
theorem trim_does_not_terminate :
    ∀ (enc : String → Nat) (fuel : Nat),
      TrimM.trim_context enc fuel trimInput 0 = .error .fuelOut := by
  intro enc fuel
  unfold TrimM.trim_context
  rw [if_neg (by decide)]
  have hscan : TrimM.dedupScan trimInput 0 = none := rfl
  have hstuck := dedupLoop_stuck 0 0
    ⟨trimInput, trimInput.map (TrimM.count_tokens_for_single_message enc),
     (trimInput.map (TrimM.count_tokens_for_single_message enc)).sum⟩
    (by simp [trimInput, TrimM.count_tokens_for_single_message])
    (by show trimInput.length > 0 + 1; decide) hscan fuel
  simp only [show (if ((trimInput.headD default).role == "system") = true then 1 else 0) = 0
        from rfl, hstuck]

/-- C3 counterexample: with ten straight rate-limit errors the direct
(openai) backend's decorator — which does not set `reraise=True` — raises
tenacity's `RetryError` wrapper, not the original error class, refuting the
claim that the original class propagates for both backends. -/
theorem openai_retry_wraps_error_counterexample :
    RetryM.openaiRetry allRateLimited = (10, .error (.retryError .rateLimit))
    ∧ isOriginalErr (RetryM.openaiRetry allRateLimited).2 = false := by
  exact ⟨rfl, rfl⟩

theorem retryFrom_reaches_success (retryable : RetryM.ApiErr → Bool)
    (reraise : Bool) (outcomes : Nat → Except RetryM.ApiErr String)
    (s : String) :
    ∀ (j attempt rem : Nat), j ≤ rem →
      (∀ k, attempt ≤ k → k < attempt + j →
        ∃ e, outcomes k = .error e ∧ retryable e = true) →
      outcomes (attempt + j) = .ok s →
      RetryM.retryFrom retryable reraise outcomes attempt rem =
        (attempt + j, .ok s) := by
  intro j
  induction j with
  | zero =>
    intro attempt rem _ _ hok
    cases rem with
    | zero => unfold RetryM.retryFrom; rw [Nat.add_zero] at hok; rw [hok]; simp
    | succ r => unfold RetryM.retryFrom; rw [Nat.add_zero] at hok; rw [hok]; simp
  | succ j ih =>
    intro attempt rem hle hfail hok
    obtain ⟨r, rfl⟩ : ∃ r, rem = r + 1 := ⟨rem - 1, by omega⟩
    obtain ⟨e, he, hre⟩ := hfail attempt (Nat.le_refl _) (by omega)
    unfold RetryM.retryFrom
    simp only [he, hre, if_true]
    have := ih (attempt + 1) r (by omega)
      (fun k hk1 hk2 => hfail k (by omega) (by omega))
      (by rw [show attempt + 1 + j = attempt + (j + 1) by omega]; exact hok)
    rw [show attempt + 1 + j = attempt + (j + 1) by omega] at this
    exact this

theorem retryFrom_exhausts (retryable : RetryM.ApiErr → Bool)
    (reraise : Bool) (outcomes : Nat → Except RetryM.ApiErr String)
    (es : Nat → RetryM.ApiErr) :
    ∀ (rem attempt : Nat),
      (∀ k, attempt ≤ k → k ≤ attempt + rem →
        outcomes k = .error (es k) ∧ retryable (es k) = true) →
      RetryM.retryFrom retryable reraise outcomes attempt rem =
        (attempt + rem,
         .error (if reraise then .original (es (attempt + rem))
                 else .retryError (es (attempt + rem)))) := by
  intro rem
  induction rem with
  | zero =>
    intro attempt hall
    obtain ⟨he, hre⟩ := hall attempt (Nat.le_refl _) (by omega)
    unfold RetryM.retryFrom
    simp only [he, hre, if_true]
    simp
  | succ r ih =>
    intro attempt hall
    obtain ⟨he, hre⟩ := hall attempt (Nat.le_refl _) (by omega)
    unfold RetryM.retryFrom
    simp only [he, hre, if_true]
    have := ih (attempt + 1) (fun k hk1 hk2 => hall k (by omega) (by omega))
    rw [show attempt + 1 + r = attempt + (r + 1) by omega] at this
    exact this

/-- C3 as amended: for either backend, N transient failures (N below the
10-attempt bound) followed by a success give exactly N+1 attempts returning
that success; when all 10 attempts fail with retryable errors, the routing
(openrouter) backend re-raises the original last error (its decorator sets
`reraise=True`), while the direct (openai) backend raises tenacity's
`RetryError` wrapper around it. -/
theorem retry_bound_and_exhaustion_amended :
    (∀ (N : Nat) (outcomes : Nat → Except RetryM.ApiErr String) (s : String),
      N < 10 →
      (∀ k, 1 ≤ k → k ≤ N → ∃ e, outcomes k = .error e ∧ RetryM.openaiRetryable e = true) →
      outcomes (N + 1) = .ok s →
      RetryM.openaiRetry outcomes = (N + 1, .ok s))
    ∧ (∀ (N : Nat) (outcomes : Nat → Except RetryM.ApiErr String) (s : String),
      N < 10 →
      (∀ k, 1 ≤ k → k ≤ N → ∃ e, outcomes k = .error e ∧ RetryM.openrouterRetryable e = true) →
      outcomes (N + 1) = .ok s →
      RetryM.openrouterRetry outcomes = (N + 1, .ok s))
    ∧ (∀ (outcomes : Nat → Except RetryM.ApiErr String) (es : Nat → RetryM.ApiErr),
      (∀ k, 1 ≤ k → k ≤ 10 → outcomes k = .error (es k) ∧ RetryM.openrouterRetryable (es k) = true) →
      RetryM.openrouterRetry outcomes = (10, .error (.original (es 10))))
    ∧ (∀ (outcomes : Nat → Except RetryM.ApiErr String) (es : Nat → RetryM.ApiErr),
      (∀ k, 1 ≤ k → k ≤ 10 → outcomes k = .error (es k) ∧ RetryM.openaiRetryable (es k) = true) →
      RetryM.openaiRetry outcomes = (10, .error (.retryError (es 10)))) := by
  refine ⟨?_, ?_, ?_, ?_⟩
  · intro N outcomes s hN hfail hok
    have := retryFrom_reaches_success RetryM.openaiRetryable false outcomes s N 1 9
      (by omega) (fun k hk1 hk2 => hfail k hk1 (by omega))
      (by rw [show 1 + N = N + 1 by omega]; exact hok)
    rw [show 1 + N = N + 1 by omega] at this
    exact this
  · intro N outcomes s hN hfail hok
    have := retryFrom_reaches_success RetryM.openrouterRetryable true outcomes s N 1 9
      (by omega) (fun k hk1 hk2 => hfail k hk1 (by omega))
      (by rw [show 1 + N = N + 1 by omega]; exact hok)
    rw [show 1 + N = N + 1 by omega] at this
    exact this
  · intro outcomes es hall
    have := retryFrom_exhausts RetryM.openrouterRetryable true outcomes es 9 1
      (fun k hk1 hk2 => hall k hk1 (by omega))
    simpa using this
  · intro outcomes es hall
    have := retryFrom_exhausts RetryM.openaiRetryable false outcomes es 9 1
      (fun k hk1 hk2 => hall k hk1 (by omega))
    simpa using this

/-- Witness for `retry_bound_and_exhaustion_amended` at concrete inputs. -/
theorem retry_bound_and_exhaustion_amended_witness :
    RetryM.openaiRetry twoThenOk = (3, .ok "done")
    ∧ RetryM.openrouterRetry twoThenOk = (3, .ok "done")
    ∧ RetryM.openrouterRetry allRateLimited = (10, .error (.original .rateLimit))
    ∧ RetryM.openaiRetry allRateLimited = (10, .error (.retryError .rateLimit)) := by
  obtain ⟨h1, h2, h3, h4⟩ := retry_bound_and_exhaustion_amended
  refine ⟨h1 2 twoThenOk "done" (by omega) ?_ rfl,
          h2 2 twoThenOk "done" (by omega) ?_ rfl,
          h3 allRateLimited (fun _ => .rateLimit) (fun k _ _ => ⟨rfl, rfl⟩),
          h4 allRateLimited (fun _ => .rateLimit) (fun k _ _ => ⟨rfl, rfl⟩)⟩
  · intro k hk1 hk2
    exact ⟨.rateLimit, by simp [twoThenOk, hk2], rfl⟩
  · intro k hk1 hk2
    exact ⟨.rateLimit, by simp [twoThenOk, hk2], rfl⟩

/-- C8: a slash-namespaced model name with the direct (openai) backend, or a
bare name with the routing (openrouter) backend, makes both the constructor
check and the per-call check report the configuration `ValueError`; the
per-call check sits before the provider request, so the attempt never
consults the request oracle; and since `ValueError` is in neither
decorator's retryable tuple, the decorated call makes exactly one attempt
and re-raises the original error.  (`name ≠ ""` because an empty override
falls back to the agent's stored model name.) -/
theorem config_mismatch_fails_fast_unretried
    (name key org rkey defaultModel : String)
    (request : Nat → Except RetryM.ApiErr String) (hne : name ≠ "") :
    (ConfigM.countSlash name ≠ 0 →
      ConfigM.agent_init_check name "openai" key org rkey =
        some .openrouterModelWithOpenai
      ∧ ConfigM.call_model_check "openai" defaultModel name =
          some .openrouterModelWithOpenai
      ∧ (∀ request', ConfigM.call_attempt "openai" defaultModel name request =
          ConfigM.call_attempt "openai" defaultModel name request')
      ∧ RetryM.openaiRetry (ConfigM.call_attempt "openai" defaultModel name request) =
          (1, .error (.original .valueError)))
    ∧ (ConfigM.countSlash name = 0 →
      ConfigM.agent_init_check name "openrouter" key org rkey =
        some .openaiModelWithOpenrouter
      ∧ ConfigM.call_model_check "openrouter" defaultModel name =
          some .openaiModelWithOpenrouter
      ∧ (∀ request', ConfigM.call_attempt "openrouter" defaultModel name request =
          ConfigM.call_attempt "openrouter" defaultModel name request')
      ∧ RetryM.openrouterRetry (ConfigM.call_attempt "openrouter" defaultModel name request) =
          (1, .error (.original .valueError))) := by
  constructor
  · intro hs
    have hinit : ConfigM.agent_init_check name "openai" key org rkey =
        some .openrouterModelWithOpenai := by
      unfold ConfigM.agent_init_check
      rw [if_neg (by simp), if_pos rfl, if_pos hs]
    have hcall : ConfigM.call_model_check "openai" defaultModel name =
        some .openrouterModelWithOpenai := by
      unfold ConfigM.call_model_check
      rw [if_neg hne]
      rw [if_pos ⟨rfl, hne, hs⟩]
    have hatt : ∀ request' k, ConfigM.call_attempt "openai" defaultModel name request' k =
        .error .valueError := by
      intro request' k
      unfold ConfigM.call_attempt
      rw [hcall]
    refine ⟨hinit, hcall, fun request' => funext fun k => by rw [hatt, hatt], ?_⟩
    unfold RetryM.openaiRetry RetryM.retryCall RetryM.retryFrom
    simp only [hatt]
    rfl
  · intro hs
    have hinit : ConfigM.agent_init_check name "openrouter" key org rkey =
        some .openaiModelWithOpenrouter := by
      unfold ConfigM.agent_init_check
      rw [if_neg (by simp), if_neg (by simp), if_pos hs]
    have hcall : ConfigM.call_model_check "openrouter" defaultModel name =
        some .openaiModelWithOpenrouter := by
      unfold ConfigM.call_model_check
      rw [if_neg hne]
      rw [if_neg (by simp), if_pos ⟨rfl, hne, hs⟩]
    have hatt : ∀ request' k, ConfigM.call_attempt "openrouter" defaultModel name request' k =
        .error .valueError := by
      intro request' k
      unfold ConfigM.call_attempt
      rw [hcall]
    refine ⟨hinit, hcall, fun request' => funext fun k => by rw [hatt, hatt], ?_⟩
    unfold RetryM.openrouterRetry RetryM.retryCall RetryM.retryFrom
    simp only [hatt]
    rfl

/-- Witness for `config_mismatch_fails_fast_unretried` at the concrete
names "vendor/model" (slash-namespaced) and "gpt" (bare). -/
theorem config_mismatch_fails_fast_unretried_witness :
    ConfigM.agent_init_check "vendor/model" "openai" "k" "o" "r" =
      some .openrouterModelWithOpenai
    ∧ RetryM.openaiRetry
        (ConfigM.call_attempt "openai" "gpt" "vendor/model" fun _ => .ok "y") =
        (1, .error (.original .valueError))
    ∧ ConfigM.agent_init_check "gpt" "openrouter" "k" "o" "r" =
        some .openaiModelWithOpenrouter
    ∧ RetryM.openrouterRetry
        (ConfigM.call_attempt "openrouter" "vendor/model" "gpt" fun _ => .ok "y") =
        (1, .error (.original .valueError)) := by
  have h1 := (config_mismatch_fails_fast_unretried "vendor/model" "k" "o" "r" "gpt"
    (fun _ => .ok "y") (by decide)).1 (by decide)
  have h2 := (config_mismatch_fails_fast_unretried "gpt" "k" "o" "r" "vendor/model"
    (fun _ => .ok "y") (by decide)).2 (by decide)
  exact ⟨h1.1, h1.2.2.2, h2.1, h2.2.2.2⟩

theorem add_message_appends (ctx : CtxM.MessageContext) (role text : String)
    (imgs : List TrimM.CItem) (h : ctx.mode = 2 ∨ ctx.mode = 3) :
    ∃ pre, (CtxM.add_message ctx role text imgs).messages =
      ctx.messages ++ (pre ++ [⟨role, .parts (.text text :: imgs)⟩])
    ∧ (CtxM.add_message ctx role text imgs).mode = ctx.mode := by
  unfold CtxM.add_message
  rcases h with h | h
  · rw [if_neg (by omega), if_pos h]
    unfold CtxM.add_message_mode_2
    by_cases hseed : ctx.task_prompt ≠ "" ∧ ctx.messages.isEmpty
    · exact ⟨[CtxM.sysMsg ctx.task_prompt], by rw [if_pos hseed]; simp, rfl⟩
    · exact ⟨[], by rw [if_neg hseed]; simp, rfl⟩
  · rw [if_neg (by omega), if_neg (by omega), if_pos h]
    unfold CtxM.add_message_mode_3
    by_cases hseed : role = "user" ∧ ctx.task_prompt ≠ ""
    · exact ⟨[CtxM.sysMsg ctx.task_prompt], by rw [if_pos hseed]; simp,
        by rw [if_pos hseed]⟩
    · exact ⟨[], by rw [if_neg hseed]; simp, by rw [if_neg hseed]⟩

/-- C10 as amended, for the context-preserving modes 2 and 3: trimming acts
only on the copied history, so after a successful `response_from_LLM` the
stored message list extends the old one (nothing is lost), contains the
appended user message, and — whenever the reply is a real model response
rather than the no-response error text — the appended assistant message.
In mode 1 the user append itself resets the log by design (the loss there
is not an effect of trimming). -/
theorem response_from_LLM_preserves_context_amended
    (enc : String → Nat) (fuel mt mr : Nat)
    (oracle : List TrimM.Msg → Option String) (ctx : CtxM.MessageContext)
    (um : String) (imgs : List TrimM.CItem) (ctx' : CtxM.MessageContext)
    (resp : String) (hmode : ctx.mode = 2 ∨ ctx.mode = 3)
    (hrun : CtxM.response_from_LLM enc fuel mt mr oracle ctx um imgs =
      .ok (ctx', resp)) :
    ctx.messages <+: ctx'.messages
    ∧ (⟨"user", .parts (.text um :: imgs)⟩ : TrimM.Msg) ∈ ctx'.messages
    ∧ (resp ≠ "Ошибка: не удалось получить ответ от API." →
        (⟨"assistant", .parts [.text resp]⟩ : TrimM.Msg) ∈ ctx'.messages) := by
  simp only [CtxM.response_from_LLM] at hrun
  obtain ⟨pre1, hu, hm1⟩ := add_message_appends ctx "user" um imgs hmode
  have hu' : (CtxM.add_user_message ctx um imgs).messages =
      ctx.messages ++ (pre1 ++ [⟨"user", .parts (.text um :: imgs)⟩]) := hu
  have hm1' : (CtxM.add_user_message ctx um imgs).mode = ctx.mode := hm1
  cases htrim : TrimM.trim_context enc fuel
      (CtxM.add_user_message ctx um imgs).messages (mt - mr) with
  | error e => simp [htrim] at hrun
  | ok trimmed =>
    simp only [htrim] at hrun
    cases horacle : oracle trimmed with
    | none =>
      simp only [horacle, Except.ok.injEq, Prod.mk.injEq] at hrun
      obtain ⟨h1, h2⟩ := hrun
      subst h1
      refine ⟨⟨_, hu'.symm⟩, by rw [hu']; simp, fun hne => absurd h2.symm hne⟩
    | some r =>
      simp only [horacle, Except.ok.injEq, Prod.mk.injEq] at hrun
      obtain ⟨h1, h2⟩ := hrun
      subst h2
      obtain ⟨pre2, ha, _⟩ := add_message_appends (CtxM.add_user_message ctx um imgs)
        "assistant" r [] (by rw [hm1']; exact hmode)
      have hctx' : ctx'.messages =
          (ctx.messages ++ (pre1 ++ [⟨"user", .parts (.text um :: imgs)⟩])) ++
            (pre2 ++ [⟨"assistant", .parts [.text r]⟩]) := by
        rw [← h1]
        rw [show CtxM.add_assistant_message (CtxM.add_user_message ctx um imgs) r =
            CtxM.add_message (CtxM.add_user_message ctx um imgs) "assistant" r []
          from rfl]
        rw [ha, hu']
      refine ⟨?_, ?_, ?_⟩
      · exact ⟨_, by rw [hctx', List.append_assoc]⟩
      · rw [hctx']; simp
      · intro _; rw [hctx']; simp

/-- C10 counterexample: in mode 1 the user append resets the stored log, so
after the call the prior assistant message is gone — the claim's "contains
every message it contained before" fails (though the loss is the mode-1
reset, not trimming). -/
theorem response_mode1_drops_message_counterexample :
    CtxM.response_from_LLM String.length 3 10000 0 (fun _ => some "ok")
      mode1Ctx "hi" [] = .ok (⟨1, "TP", mode1After⟩, "ok")
    ∧ (⟨"assistant", .parts [.text "old"]⟩ : TrimM.Msg) ∈ mode1Ctx.messages
    ∧ (⟨"assistant", .parts [.text "old"]⟩ : TrimM.Msg) ∉ mode1After := by
  refine ⟨rfl, by simp [mode1Ctx], by decide⟩

/-- Witness for `response_from_LLM_preserves_context_amended` at a concrete
mode-2 context. -/
theorem response_from_LLM_preserves_context_amended_witness :
    (⟨2, "", [⟨"assistant", .parts [.text "old"]⟩]⟩ :
        CtxM.MessageContext).messages <+:
      (⟨2, "", [⟨"assistant", .parts [.text "old"]⟩,
        ⟨"user", .parts [.text "hi"]⟩, ⟨"assistant", .parts [.text "ok"]⟩]⟩ :
        CtxM.MessageContext).messages
    ∧ (⟨"user", .parts [.text "hi"]⟩ : TrimM.Msg) ∈
        (⟨2, "", [⟨"assistant", .parts [.text "old"]⟩,
          ⟨"user", .parts [.text "hi"]⟩, ⟨"assistant", .parts [.text "ok"]⟩]⟩ :
          CtxM.MessageContext).messages
    ∧ ("ok" ≠ "Ошибка: не удалось получить ответ от API." →
        (⟨"assistant", .parts [.text "ok"]⟩ : TrimM.Msg) ∈
          (⟨2, "", [⟨"assistant", .parts [.text "old"]⟩,
            ⟨"user", .parts [.text "hi"]⟩, ⟨"assistant", .parts [.text "ok"]⟩]⟩ :
            CtxM.MessageContext).messages) := by
  exact response_from_LLM_preserves_context_amended String.length 3 10000 0
    (fun _ => some "ok") ⟨2, "", [⟨"assistant", .parts [.text "old"]⟩]⟩ "hi" []
    ⟨2, "", [⟨"assistant", .parts [.text "old"]⟩, ⟨"user", .parts [.text "hi"]⟩,
      ⟨"assistant", .parts [.text "ok"]⟩]⟩ "ok" (Or.inl rfl) rfl

/-- C9 (code bug): on the reply "действие б" the fourth contextual pattern
matches, but the `letter_group = 1 if pattern == r'([абвг])\s*\)' else 2`
line picks group 2 of a one-group pattern, so `match.group(2)` raises
`IndexError: no such group` and the exception escapes the parser — whereas
the claimed cascade would fall through to the bare-letter stage (which here
finds the `в` inside "действие" and would return continue). -/
theorem action_group_index_crash :
    ParseM.parsing_action_function "действие б" = .error .noSuchGroup
    ∧ ParseM.patternStage "действие б" = some (.error .noSuchGroup)
    ∧ ParseM.bareCyrStage "действие б" = some ParseM.strV := by
  exact ⟨rfl, rfl, rfl⟩

theorem stepOk_trans_left {L1 L2 L3 : List EngM.Ev} {P : Prop}
    (h1 : StepOk L1 L2 False) (h2 : StepOk L2 L3 P) : StepOk L1 L3 P := by
  obtain ⟨m1, g1, _⟩ := h1
  obtain ⟨m2, g2, b2⟩ := h2
  refine ⟨fun e he => m2 e (m1 e he), fun e he => ?_, b2⟩
  rcases g2 e he with h | h
  · rcases g1 e h with h' | h'
    · exact Or.inl h'
    · exact Or.inr ⟨h'.1, h'.2.1, fun hb => absurd (h'.2.2 hb) not_false⟩
  · exact Or.inr h

theorem stepOk_trans_right {L1 L2 L3 : List EngM.Ev} {P : Prop}
    (h1 : StepOk L1 L2 P) (h2 : StepOk L2 L3 False) : StepOk L1 L3 P := by
  obtain ⟨m1, g1, b1⟩ := h1
  obtain ⟨m2, g2, b2⟩ := h2
  refine ⟨fun e he => m2 e (m1 e he), fun e he => ?_, fun hP => m2 _ (b1 hP)⟩
  rcases g2 e he with h | h
  · rcases g1 e h with h' | h'
    · exact Or.inl h'
    · exact Or.inr h'
  · exact Or.inr ⟨h.1, h.2.1, fun hb => absurd (h.2.2 hb) not_false⟩

/-- Appending events that are neither recovery calls, bad solve entries,
nor budget raises. -/
theorem stepOk_append {L : List EngM.Ev} {Δ : List EngM.Ev}
    (h : ∀ e ∈ Δ, e ≠ EngM.Ev.recoveryCall ∧
      (∀ d b a sk, e = EngM.Ev.enterSolve d b a sk → a = max b d) ∧
      e ≠ EngM.Ev.budgetRaise) :
    StepOk L (L ++ Δ) False := by
  refine ⟨fun e he => List.mem_append_left _ he, fun e he => ?_, False.elim⟩
  rcases List.mem_append.mp he with h' | h'
  · exact Or.inl h'
  · obtain ⟨a, b, c⟩ := h e h'
    exact Or.inr ⟨a, b, fun hb => absurd hb c⟩

theorem stepOk_refl {L : List EngM.Ev} : StepOk L L False :=
  ⟨fun _ he => he, fun _ he => Or.inl he, False.elim⟩


theorem enter_event_ok (d b : Nat) (sk : Bool) :
    ∀ d' b' a' sk', EngM.Ev.enterSolve d b (max b d) sk =
      EngM.Ev.enterSolve d' b' a' sk' → a' = max b' d' := by
  intro d' b' a' sk' hx
  cases hx
  rfl

theorem stepOk_of_ne {L : List EngM.Ev} {P : Prop} (hnP : ¬P) : StepOk L L P :=
  ⟨fun _ he => he, fun _ he => Or.inl he, fun hP => absurd hP hnP⟩

theorem stepOk_congr {L L' : List EngM.Ev} {P Q : Prop} (hpq : P ↔ Q)
    (h : StepOk L L' P) : StepOk L L' Q :=
  ⟨h.1, fun e he => (h.2.1 e he).imp id fun g => ⟨g.1, g.2.1, fun hb => hpq.mp (g.2.2 hb)⟩,
   fun hQ => h.2.2 (hpq.mpr hQ)⟩

theorem stepOk_weaken {L L' : List EngM.Ev} {P : Prop} (hnP : ¬P)
    (h : StepOk L L' False) : StepOk L L' P :=
  stepOk_congr ⟨False.elim, hnP⟩ h

theorem engine_stepOk : ∀ fuel : Nat,
    (∀ (cfg : EngM.Cfg) (d : Nat) (sk : Bool) (st st' : EngM.St)
        (r : Except EngM.EErr (Option String)),
      EngM.solve_task cfg fuel d sk st = (r, st') →
      StepOk st.log st'.log (r = .error .budget))
    ∧ (∀ (cfg : EngM.Cfg) (subs : List String) (first : Bool) (st st' : EngM.St)
        (r : Except EngM.EErr Unit),
      EngM.solveSubtasks cfg fuel subs first st = (r, st') →
      StepOk st.log st'.log (r = .error .budget))
    ∧ (∀ (cfg : EngM.Cfg) (t : String) (d : Nat) (st st' : EngM.St)
        (r : Except EngM.EErr (Option String)),
      EngM.recursion cfg fuel t d st = (r, st') →
      StepOk st.log st'.log (r = .error .budget)) := by
  intro fuel
  induction fuel with
  | zero =>
    refine ⟨fun cfg d sk st st' r h => ?_, fun cfg subs first st st' r h => ?_,
            fun cfg t d st st' r h => ?_⟩ <;>
    · obtain ⟨h1, h2⟩ := Prod.mk.injEq .. ▸ h
      subst h2
      exact stepOk_of_ne (by rw [← h1]; simp)
  | succ n ih =>
    obtain ⟨ihS, ihL, ihR⟩ := ih
    refine ⟨?_, ?_, ?_⟩
    · -- solve_task
      intro cfg d sk st st' r h
      simp only [EngM.solve_task, EngM.llm] at h
      by_cases hbud : max st.c d > cfg.maxCalls
      · rw [if_pos hbud] at h
        obtain ⟨h1, h2⟩ := Prod.mk.injEq .. ▸ h
        subst h2
        refine ⟨fun e he => by simp [he], fun e he => ?_, fun _ => by simp⟩
        simp only [List.append_assoc, List.mem_append, List.mem_cons,
          List.not_mem_nil, or_false, List.mem_singleton] at he
        rcases he with he | he | he
        · exact Or.inl he
        · subst he
          exact Or.inr ⟨by simp, enter_event_ok d st.c sk, fun hx => by simp at hx⟩
        · subst he
          exact Or.inr ⟨by simp, fun d' b a sk' hx => by simp at hx,
            fun _ => by rw [← h1]⟩
      · rw [if_neg hbud] at h
        cases sk with
        | true =>
          simp only [if_true] at h
          split at h
          · obtain ⟨h1, h2⟩ := Prod.mk.injEq .. ▸ h
            subst h2
            refine stepOk_weaken (by rw [← h1]; simp) ?_
            simp only [List.append_assoc]
            apply stepOk_append
            intro e he
            simp only [List.mem_append, List.mem_cons, List.not_mem_nil,
              or_false, List.mem_singleton] at he
            rcases he with he | he | he | he <;> subst he <;>
              first
              | exact ⟨by simp, enter_event_ok _ _ _, fun hx => by simp at hx⟩
              | exact ⟨by simp, fun d' b' a' sk' hx => by simp at hx,
                  fun hx => by simp at hx⟩
          · -- parsed action code: the four-way dispatch
            split at h
            · -- accept
              obtain ⟨h1, h2⟩ := Prod.mk.injEq .. ▸ h
              subst h2
              refine stepOk_weaken (by rw [← h1]; simp) ?_
              simp only [List.append_assoc]
              apply stepOk_append
              intro e he
              simp only [List.mem_append, List.mem_cons, List.not_mem_nil,
                or_false, List.mem_singleton] at he
              rcases he with he | he | he | he | he <;> subst he <;>
                first
                | exact ⟨by simp, enter_event_ok _ _ _, fun hx => by simp at hx⟩
                | exact ⟨by simp, fun d' b' a' sk' hx => by simp at hx,
                    fun hx => by simp at hx⟩
            · split at h
              · -- repair
                refine stepOk_trans_left ?_ (ihS _ _ _ _ _ _ h)
                simp only [List.append_assoc]
                apply stepOk_append
                intro e he
                simp only [List.mem_append, List.mem_cons, List.not_mem_nil,
                  or_false, List.mem_singleton] at he
                rcases he with he | he | he | he | he <;> subst he <;>
                  first
                  | exact ⟨by simp, enter_event_ok _ _ _, fun hx => by simp at hx⟩
                  | exact ⟨by simp, fun d' b' a' sk' hx => by simp at hx,
                      fun hx => by simp at hx⟩
              · split at h
                · -- continue
                  refine stepOk_trans_left ?_ (ihS _ _ _ _ _ _ h)
                  simp only [List.append_assoc]
                  apply stepOk_append
                  intro e he
                  simp only [List.mem_append, List.mem_cons, List.not_mem_nil,
                    or_false, List.mem_singleton] at he
                  rcases he with he | he | he | he | he <;> subst he <;>
                    first
                    | exact ⟨by simp, enter_event_ok _ _ _, fun hx => by simp at hx⟩
                    | exact ⟨by simp, fun d' b' a' sk' hx => by simp at hx,
                        fun hx => by simp at hx⟩
                · split at h
                  · -- decompose
                    split at h
                    · -- a subtask failed
                      rename_i e1 stY heq
                      obtain ⟨h1, h2⟩ := Prod.mk.injEq .. ▸ h
                      subst h2
                      have hsub := ihL _ _ _ _ _ _ heq
                      refine stepOk_trans_left ?_ (stepOk_congr ?_ hsub)
                      · simp only [List.append_assoc]
                        apply stepOk_append
                        intro e he
                        simp only [List.mem_append, List.mem_cons,
                          List.not_mem_nil, or_false, List.mem_singleton] at he
                        rcases he with he | he | he | he | he | he <;> subst he <;>
                          first
                          | exact ⟨by simp, enter_event_ok _ _ _,
                              fun hx => by simp at hx⟩
                          | exact ⟨by simp, fun d' b' a' sk' hx => by simp at hx,
                              fun hx => by simp at hx⟩
                      · rw [← h1]
                        constructor
                        · intro hx
                          simp only [Except.error.injEq] at hx
                          simp [hx]
                        · intro hx
                          simp only [Except.error.injEq] at hx
                          simp [hx]
                    · -- subtasks done; reduce_order and re-enter
                      split at h
                      · -- reduce_order failed
                        rename_i v stY heq x2 e2 heq2
                        obtain ⟨h1, h2⟩ := Prod.mk.injEq .. ▸ h
                        subst h2
                        have hsub := stepOk_congr
                          (by simp : ((Except.ok v : Except EngM.EErr Unit) =
                            .error .budget) ↔ False) (ihL _ _ _ _ _ _ heq)
                        refine stepOk_weaken (by rw [← h1]; simp) ?_
                        refine stepOk_trans_left ?_ hsub
                        simp only [List.append_assoc]
                        apply stepOk_append
                        intro e he
                        simp only [List.mem_append, List.mem_cons,
                          List.not_mem_nil, or_false, List.mem_singleton] at he
                        rcases he with he | he | he | he | he | he <;> subst he <;>
                          first
                          | exact ⟨by simp, enter_event_ok _ _ _,
                              fun hx => by simp at hx⟩
                          | exact ⟨by simp, fun d' b' a' sk' hx => by simp at hx,
                              fun hx => by simp at hx⟩
                      · -- integration instruction appended, re-enter the solve step
                        rename_i v stY heq x2 tc2 heq2
                        have hsub := stepOk_congr
                          (by simp : ((Except.ok v : Except EngM.EErr Unit) =
                            .error .budget) ↔ False) (ihL _ _ _ _ _ _ heq)
                        have hins : StepOk stY.log
                            (stY.log ++ [EngM.Ev.integrate]) False := by
                          apply stepOk_append
                          intro e he
                          simp only [List.mem_singleton] at he
                          subst he
                          exact ⟨by simp, fun d' b' a' sk' hx => by simp at hx,
                            fun hx => by simp at hx⟩
                        refine stepOk_trans_left ?_ (stepOk_trans_left hsub
                          (stepOk_trans_left hins (ihS _ _ _ _ _ _ h)))
                        simp only [List.append_assoc]
                        apply stepOk_append
                        intro e he
                        simp only [List.mem_append, List.mem_cons,
                          List.not_mem_nil, or_false, List.mem_singleton] at he
                        rcases he with he | he | he | he | he | he <;> subst he <;>
                          first
                          | exact ⟨by simp, enter_event_ok _ _ _,
                              fun hx => by simp at hx⟩
                          | exact ⟨by simp, fun d' b' a' sk' hx => by simp at hx,
                              fun hx => by simp at hx⟩
                  · -- unrecognised code
                    obtain ⟨h1, h2⟩ := Prod.mk.injEq .. ▸ h
                    subst h2
                    refine stepOk_weaken (by rw [← h1]; simp) ?_
                    simp only [List.append_assoc]
                    apply stepOk_append
                    intro e he
                    simp only [List.mem_append, List.mem_cons, List.not_mem_nil,
                      or_false, List.mem_singleton] at he
                    rcases he with he | he | he | he | he <;> subst he <;>
                      first
                      | exact ⟨by simp, enter_event_ok _ _ _, fun hx => by simp at hx⟩
                      | exact ⟨by simp, fun d' b' a' sk' hx => by simp at hx,
                          fun hx => by simp at hx⟩
        | false =>
          simp only [Bool.false_eq_true, if_false] at h
          split at h
          · obtain ⟨h1, h2⟩ := Prod.mk.injEq .. ▸ h
            subst h2
            refine stepOk_weaken (by rw [← h1]; simp) ?_
            simp only [List.append_assoc]
            apply stepOk_append
            intro e he
            simp only [List.mem_append, List.mem_cons, List.not_mem_nil,
              or_false, List.mem_singleton] at he
            rcases he with he | he | he | he | he | he <;> subst he <;>
              first
              | exact ⟨by simp, enter_event_ok _ _ _, fun hx => by simp at hx⟩
              | exact ⟨by simp, fun d' b' a' sk' hx => by simp at hx,
                  fun hx => by simp at hx⟩
          · -- parsed action code: the four-way dispatch
            split at h
            · -- accept
              obtain ⟨h1, h2⟩ := Prod.mk.injEq .. ▸ h
              subst h2
              refine stepOk_weaken (by rw [← h1]; simp) ?_
              simp only [List.append_assoc]
              apply stepOk_append
              intro e he
              simp only [List.mem_append, List.mem_cons, List.not_mem_nil,
                or_false, List.mem_singleton] at he
              rcases he with he | he | he | he | he | he | he <;> subst he <;>
                first
                | exact ⟨by simp, enter_event_ok _ _ _, fun hx => by simp at hx⟩
                | exact ⟨by simp, fun d' b' a' sk' hx => by simp at hx,
                    fun hx => by simp at hx⟩
            · split at h
              · -- repair
                refine stepOk_trans_left ?_ (ihS _ _ _ _ _ _ h)
                simp only [List.append_assoc]
                apply stepOk_append
                intro e he
                simp only [List.mem_append, List.mem_cons, List.not_mem_nil,
                  or_false, List.mem_singleton] at he
                rcases he with he | he | he | he | he | he | he <;> subst he <;>
                  first
                  | exact ⟨by simp, enter_event_ok _ _ _, fun hx => by simp at hx⟩
                  | exact ⟨by simp, fun d' b' a' sk' hx => by simp at hx,
                      fun hx => by simp at hx⟩
              · split at h
                · -- continue
                  refine stepOk_trans_left ?_ (ihS _ _ _ _ _ _ h)
                  simp only [List.append_assoc]
                  apply stepOk_append
                  intro e he
                  simp only [List.mem_append, List.mem_cons, List.not_mem_nil,
                    or_false, List.mem_singleton] at he
                  rcases he with he | he | he | he | he | he | he <;> subst he <;>
                    first
                    | exact ⟨by simp, enter_event_ok _ _ _, fun hx => by simp at hx⟩
                    | exact ⟨by simp, fun d' b' a' sk' hx => by simp at hx,
                        fun hx => by simp at hx⟩
                · split at h
                  · -- decompose
                    split at h
                    · -- a subtask failed
                      rename_i e1 stY heq
                      obtain ⟨h1, h2⟩ := Prod.mk.injEq .. ▸ h
                      subst h2
                      have hsub := ihL _ _ _ _ _ _ heq
                      refine stepOk_trans_left ?_ (stepOk_congr ?_ hsub)
                      · simp only [List.append_assoc]
                        apply stepOk_append
                        intro e he
                        simp only [List.mem_append, List.mem_cons,
                          List.not_mem_nil, or_false, List.mem_singleton] at he
                        rcases he with he | he | he | he | he | he | he | he <;> subst he <;>
                          first
                          | exact ⟨by simp, enter_event_ok _ _ _,
                              fun hx => by simp at hx⟩
                          | exact ⟨by simp, fun d' b' a' sk' hx => by simp at hx,
                              fun hx => by simp at hx⟩
                      · rw [← h1]
                        constructor
                        · intro hx
                          simp only [Except.error.injEq] at hx
                          simp [hx]
                        · intro hx
                          simp only [Except.error.injEq] at hx
                          simp [hx]
                    · -- subtasks done; reduce_order and re-enter
                      split at h
                      · -- reduce_order failed
                        rename_i v stY heq x2 e2 heq2
                        obtain ⟨h1, h2⟩ := Prod.mk.injEq .. ▸ h
                        subst h2
                        have hsub := stepOk_congr
                          (by simp : ((Except.ok v : Except EngM.EErr Unit) =
                            .error .budget) ↔ False) (ihL _ _ _ _ _ _ heq)
                        refine stepOk_weaken (by rw [← h1]; simp) ?_
                        refine stepOk_trans_left ?_ hsub
                        simp only [List.append_assoc]
                        apply stepOk_append
                        intro e he
                        simp only [List.mem_append, List.mem_cons,
                          List.not_mem_nil, or_false, List.mem_singleton] at he
                        rcases he with he | he | he | he | he | he | he | he <;> subst he <;>
                          first
                          | exact ⟨by simp, enter_event_ok _ _ _,
                              fun hx => by simp at hx⟩
                          | exact ⟨by simp, fun d' b' a' sk' hx => by simp at hx,
                              fun hx => by simp at hx⟩
                      · -- integration instruction appended, re-enter the solve step
                        rename_i v stY heq x2 tc2 heq2
                        have hsub := stepOk_congr
                          (by simp : ((Except.ok v : Except EngM.EErr Unit) =
                            .error .budget) ↔ False) (ihL _ _ _ _ _ _ heq)
                        have hins : StepOk stY.log
                            (stY.log ++ [EngM.Ev.integrate]) False := by
                          apply stepOk_append
                          intro e he
                          simp only [List.mem_singleton] at he
                          subst he
                          exact ⟨by simp, fun d' b' a' sk' hx => by simp at hx,
                            fun hx => by simp at hx⟩
                        refine stepOk_trans_left ?_ (stepOk_trans_left hsub
                          (stepOk_trans_left hins (ihS _ _ _ _ _ _ h)))
                        simp only [List.append_assoc]
                        apply stepOk_append
                        intro e he
                        simp only [List.mem_append, List.mem_cons,
                          List.not_mem_nil, or_false, List.mem_singleton] at he
                        rcases he with he | he | he | he | he | he | he | he <;> subst he <;>
                          first
                          | exact ⟨by simp, enter_event_ok _ _ _,
                              fun hx => by simp at hx⟩
                          | exact ⟨by simp, fun d' b' a' sk' hx => by simp at hx,
                              fun hx => by simp at hx⟩
                  · -- unrecognised code
                    obtain ⟨h1, h2⟩ := Prod.mk.injEq .. ▸ h
                    subst h2
                    refine stepOk_weaken (by rw [← h1]; simp) ?_
                    simp only [List.append_assoc]
                    apply stepOk_append
                    intro e he
                    simp only [List.mem_append, List.mem_cons, List.not_mem_nil,
                      or_false, List.mem_singleton] at he
                    rcases he with he | he | he | he | he | he | he <;> subst he <;>
                      first
                      | exact ⟨by simp, enter_event_ok _ _ _, fun hx => by simp at hx⟩
                      | exact ⟨by simp, fun d' b' a' sk' hx => by simp at hx,
                          fun hx => by simp at hx⟩
    · -- solveSubtasks
      intro cfg subs first st st' r h
      cases subs with
      | nil =>
        simp only [EngM.solveSubtasks] at h
        obtain ⟨h1, h2⟩ := Prod.mk.injEq .. ▸ h
        subst h2
        exact stepOk_of_ne (by rw [← h1]; simp)
      | cons sub rest =>
        simp only [EngM.solveSubtasks] at h
        cases first with
        | true =>
          simp only [if_pos] at h
          rcases hrec : EngM.recursion cfg n sub (st.c + 4) st with ⟨rr, stY⟩
          simp only [hrec] at h
          have hstep := ihR _ _ _ _ _ _ hrec
          cases rr with
          | error e =>
            simp only [Except.error.injEq] at h
            obtain ⟨h1, h2⟩ := Prod.mk.injEq .. ▸ h
            subst h2
            refine stepOk_congr ?_ hstep
            rw [← h1]
            constructor
            · intro hx
              simp only [Except.error.injEq] at hx
              simp [hx]
            · intro hx
              simp only [Except.error.injEq] at hx
              simp [hx]
          | ok v =>
            have hfirst := stepOk_congr (by simp : ((Except.ok v : Except EngM.EErr (Option String)) = .error .budget) ↔ False) hstep
            exact stepOk_trans_left hfirst (ihL _ _ _ _ _ _ h)
        | false =>
          simp only [Bool.false_eq_true, if_false] at h
          cases hdig : TaskCounterM.increase_digit st.tc with
          | error e =>
            simp only [hdig] at h
            obtain ⟨h1, h2⟩ := Prod.mk.injEq .. ▸ h
            subst h2
            exact stepOk_of_ne (by rw [← h1]; simp)
          | ok tc' =>
            simp only [hdig] at h
            rcases hrec : EngM.recursion cfg n sub (st.c + 4)
                { st with tc := tc' } with ⟨rr, stY⟩
            simp only [hrec] at h
            have hstep := ihR _ _ _ _ _ _ hrec
            cases rr with
            | error e =>
              simp only [Except.error.injEq] at h
              obtain ⟨h1, h2⟩ := Prod.mk.injEq .. ▸ h
              subst h2
              refine stepOk_congr ?_ hstep
              rw [← h1]
              constructor
              · intro hx
                simp only [Except.error.injEq] at hx
                simp [hx]
              · intro hx
                simp only [Except.error.injEq] at hx
                simp [hx]
            | ok v =>
              have hfirst := stepOk_congr
                (by simp : ((Except.ok v : Except EngM.EErr (Option String)) =
                  .error .budget) ↔ False) hstep
              exact stepOk_trans_left hfirst (ihL _ _ _ _ _ _ h)
    · -- recursion
      intro cfg t d st st' r h
      simp only [EngM.recursion, EngM.llm] at h
      have hglue : StepOk st.log
          (st.log ++ [EngM.Ev.llmCall st.calls] ++ [EngM.Ev.llmCall (st.calls + 1)])
          False := by
        rw [List.append_assoc]
        apply stepOk_append
        intro e he
        simp only [List.mem_append, List.mem_singleton, List.mem_cons,
          List.not_mem_nil, or_false] at he
        rcases he with he | he <;> subst he <;>
          exact ⟨by simp, fun d' b a sk hx => by simp at hx, by simp⟩
      exact stepOk_trans_left hglue (ihS _ _ _ _ _ _ h)

/-- C2 as amended: each entry to the solve step updates the shared counter
to the maximum of its current value and the caller-passed depth — so every
logged entry satisfies `after = max before depth`, which is not an increment
at the decomposition re-entry, where the passed depth is the counter
itself — and whenever a completed run raised the budget signal exactly one
recovery call was made (and none otherwise), the run still returning a
final answer (`Except.ok`). -/
theorem budget_unwinds_to_one_recovery_amended
    (mc fuel : Nat) (oracle : Nat → String) (um s : String) (st : EngM.St)
    (h : EngM.engineTop ⟨mc, oracle⟩ fuel um = (.ok s, st)) :
    (EngM.Ev.budgetRaise ∈ st.log →
      st.log.countP (fun e => e == EngM.Ev.recoveryCall) = 1)
    ∧ (EngM.Ev.budgetRaise ∉ st.log →
      st.log.countP (fun e => e == EngM.Ev.recoveryCall) = 0)
    ∧ (∀ d b a sk, EngM.Ev.enterSolve d b a sk ∈ st.log → a = max b d) := by
  simp only [EngM.engineTop, EngM.llm, EngM.handle_recursion_limit_exceeded] at h
  rcases hrec : EngM.recursion ⟨mc, oracle⟩ fuel um 0 ⟨0, [], 0, []⟩ with ⟨rr, st1⟩
  simp only [hrec] at h
  have hstep := (engine_stepOk fuel).2.2 _ _ _ _ _ _ hrec
  have hgood : ∀ e ∈ st1.log, e ≠ EngM.Ev.recoveryCall
      ∧ (∀ d b a sk, e = EngM.Ev.enterSolve d b a sk → a = max b d)
      ∧ (e = EngM.Ev.budgetRaise → rr = .error .budget) := by
    intro e he
    rcases hstep.2.1 e he with hx | hx
    · simp at hx
    · exact hx
  have hcount : st1.log.countP (fun e => e == EngM.Ev.recoveryCall) = 0 := by
    rw [List.countP_eq_zero]
    intro e he
    simp only [beq_iff_eq, decide_eq_true_eq]
    exact (hgood e he).1
  cases rr with
  | ok v =>
    obtain ⟨h1, h2⟩ := Prod.mk.injEq .. ▸ h
    subst h2
    have hnob : EngM.Ev.budgetRaise ∉ st1.log := by
      intro hb
      have := (hgood _ hb).2.2 rfl
      simp at this
    refine ⟨fun hb => ?_, fun _ => ?_, fun d b a sk hmem => ?_⟩
    · exfalso
      simp only [List.append_assoc, List.mem_append, List.mem_singleton,
        List.mem_cons, List.not_mem_nil, or_false] at hb
      rcases hb with hb | hb | hb
      · exact hnob hb
      · simp at hb
      · simp at hb
    · simp only [List.append_assoc, List.countP_append, hcount]
      rfl
    · simp only [List.append_assoc, List.mem_append, List.mem_singleton,
        List.mem_cons, List.not_mem_nil, or_false] at hmem
      rcases hmem with hm | hm | hm
      · exact (hgood _ hm).2.1 d b a sk rfl
      · simp at hm
      · simp at hm
  | error e =>
    cases e with
    | budget =>
      obtain ⟨h1, h2⟩ := Prod.mk.injEq .. ▸ h
      subst h2
      have hb1 : EngM.Ev.budgetRaise ∈ st1.log := hstep.2.2 rfl
      refine ⟨fun _ => ?_, fun hnb => ?_, fun d b a sk hmem => ?_⟩
      · simp only [List.append_assoc, List.countP_append, hcount]
        rfl
      · exfalso
        exact hnb (by simp only [List.append_assoc, List.mem_append]; exact Or.inl hb1)
      · simp only [List.append_assoc, List.mem_append, List.mem_singleton,
          List.mem_cons, List.not_mem_nil, or_false] at hmem
        rcases hmem with hm | hm | hm | hm | hm
        · exact (hgood _ hm).2.1 d b a sk rfl
        all_goals simp at hm
    | parseCrash e2 => simp at h
    | counterCrash => simp at h
    | fuelOut => simp at h

set_option maxHeartbeats 16000000 in
theorem decomposeRun_eval :
    EngM.decomposeRun = (.ok ParseM.strA, ⟨0, [], 15, EngM.decomposeRunLog⟩) := by
  rfl

/-- C1 (code bug): in `decomposeRun` the engine, re-entering the solve step
right after the decomposition integration instruction, runs the DRAFT
(solution-generation) call again — the re-entry at `enterSolve 4 4 4 false`
carries `skip_solution_generation=False` (the call site passes the literal
`False` despite its own comment) and is immediately followed by the draft
call — while a fresh node runs DRAFT, VERIFY, DECIDE in order; the skip
flag is never set anywhere in the run. -/
theorem decompose_reentry_repeats_draft :
    EngM.decomposeRun.2.log = EngM.decomposeRunLog
    ∧ (EngM.decomposeRunLog.dropWhile fun e => !(e == EngM.Ev.integrate)).take 4 =
        [EngM.Ev.integrate, EngM.Ev.enterSolve 4 4 4 false,
         EngM.Ev.llmCall 11, EngM.Ev.draftPhase]
    ∧ EngM.decomposeRunLog.take 9 =
        [EngM.Ev.llmCall 0, EngM.Ev.llmCall 1, EngM.Ev.enterSolve 2 0 2 false,
         EngM.Ev.llmCall 2, EngM.Ev.draftPhase, EngM.Ev.llmCall 3,
         EngM.Ev.verifyPhase, EngM.Ev.llmCall 4,
         EngM.Ev.decidePhase ParseM.strG]
    ∧ (EngM.decomposeRunLog.all fun e =>
        match e with
        | EngM.Ev.enterSolve _ _ _ s => !s
        | _ => true) = true := by
  refine ⟨by rw [decomposeRun_eval], by decide, by decide, by decide⟩

/-- C2 counterexample: not every entry to the solve step increments the
shared counter — the decomposition re-entry of `decomposeRun` enters with
the counter already at the passed depth (`enterSolve 4 4 4`), leaving it
unchanged. -/
theorem entry_without_increment_counterexample :
    (EngM.decomposeRun.2.log.all incrementsAt) = false := by
  have hlog : EngM.decomposeRun.2.log = EngM.decomposeRunLog := by
    rw [decomposeRun_eval]
  rw [hlog]
  decide

set_option maxHeartbeats 4000000 in
/-- Witness for `budget_unwinds_to_one_recovery_amended` on a concrete
budget-exceeded run. -/
theorem budget_unwinds_to_one_recovery_amended_witness :
    (EngM.Ev.budgetRaise ∈ budgetRunSt.log →
      budgetRunSt.log.countP (fun e => e == EngM.Ev.recoveryCall) = 1)
    ∧ (EngM.Ev.budgetRaise ∉ budgetRunSt.log →
      budgetRunSt.log.countP (fun e => e == EngM.Ev.recoveryCall) = 0)
    ∧ (∀ d b a sk, EngM.Ev.enterSolve d b a sk ∈ budgetRunSt.log →
        a = max b d) :=
  budget_unwinds_to_one_recovery_amended 3 10 budgetOracle "t" ParseM.strA
    budgetRunSt (by rfl)
